import Mathlib

/-!
# senulator: a shallow embedding of `generator.go`

The development embeds the four functions of `generator.go`
(`New`, `Generate`, `generateUnit`, `createRecord`) and proves properties of them.

Modelling conventions.

* `int64` values are Lean integers; every `int64` operation of the source is
  followed by an explicit two's-complement wrap (`wrap64`).  Go's `int` is taken
  to be 64 bits wide, so `int(x)` and `int64(i)` are identities.
* `float64` values are rationals.  The conversion `float64(n)` of an `int64` is
  the IEEE 754 one: `n` rounded to the nearest number with a 53-bit mantissa, a
  tie going to the even mantissa (`float64`); it is exact up to `2^53`.  Sums,
  differences and products of `float64` values are computed exactly: the rounding
  of `float64` arithmetic, infinities and NaN are outside the model.
* A Go call either returns its `(value, error)` pair or panics (`Outcome`).
  Methods with a pointer receiver return the receiver's state after the call.
* The random source is an explicit sequence of draws.  One loop step of
  `generateUnit` consumes one draw: the category index returned by
  `table.Next()` and the fraction returned by `reader.Float64()`.  The alias
  table is a library outside this package; what it can return for a unit (an
  index of `Probability`) is the predicate `SamplerDraw`.
* `make([]T, 0, n)` panics when `n` is negative or above the largest capacity the
  platform allocates (`makeFails`).  That limit depends on the platform and on the
  size of the record type of the `senml` library, so it is a parameter, `maxCap`,
  of `Generate` and `generateUnit`.  An allocation within the limit succeeds, and
  so does `append`.
* `fmt.Printf` under `Debug` has no effect on any value and is omitted.
-/

namespace Senulator

/-! ## Machine integers -/

/-- Two's-complement reduction of an integer to the `int64` range. -/
def wrap64 (x : Int) : Int := (x + 2 ^ 63) % 2 ^ 64 - 2 ^ 63

/-- The values of type `int64`. -/
def isInt64 (x : Int) : Prop := -(2 ^ 63) ≤ x ∧ x < 2 ^ 63

instance (x : Int) : Decidable (isInt64 x) := by
  unfold isInt64; infer_instance

/-- Go `a + b` on `int64`. -/
def add64 (a b : Int) : Int := wrap64 (a + b)

/-- Go `a - b` on `int64`. -/
def sub64 (a b : Int) : Int := wrap64 (a - b)

/-- Go `a * b` on `int64`. -/
def mul64 (a b : Int) : Int := wrap64 (a * b)

/-- Go `a / b` on `int64` for a non-zero divisor: the quotient truncated toward
zero (the one overflowing case, `MinInt64 / -1`, wraps). -/
def div64 (a b : Int) : Int := wrap64 (Int.tdiv a b)

/-! ## Conversion of integers to `float64` -/

/-- Go `float64(a)` for a magnitude `a` of an `int64` (`a ≤ 2^63`): the nearest
number with a 53-bit mantissa, a tie going to the even mantissa.  Magnitudes up
to `2^53` are kept; above, `shift` is the number of low bits that do not fit the
mantissa `m`, and `rest` is their value. -/
def float64OfNat (a : Nat) : Nat :=
  if a ≤ 2 ^ 53 then a
  else
    let shift := ((List.range 12).find? fun s => a < 2 ^ (53 + s)).getD 11
    let q := 2 ^ shift
    let m := a / q
    let rest := a % q
    if 2 * rest < q then m * q
    else if 2 * rest = q ∧ m % 2 = 0 then m * q
    else (m + 1) * q

/-- Go `float64(x)` for an `int64` `x`: the sign is kept and the magnitude is
rounded by `float64OfNat`.  The result is an integer, held as a rational. -/
def float64 (x : Int) : ℚ :=
  if x < 0 then -((float64OfNat x.natAbs : Nat) : ℚ) else ((float64OfNat x.natAbs : Nat) : ℚ)

/-! ## Data model -/

/-- The fields of `senml.SenMLRecord` that the program sets.  `Value` is a pointer
in the source, so it is optional here (`none` is the nil pointer). -/
structure SenMLRecord where
  BaseName : String := ""
  BaseTime : ℚ := 0
  BaseVersion : Int := 0
  Time : ℚ := 0
  Value : Option ℚ := none
  Unit : String := ""
  deriving DecidableEq, Repr

/-- Go `Unit`.  `Categories` is a `map[int][]float64`, kept as an association list
read through `List.lookup`. -/
structure Unit where
  Name : String := ""
  Symbol : String := ""
  UseFloor : Bool := false
  UseCeiling : Bool := false
  Floor : ℚ := 0
  Ceiling : ℚ := 0
  Probability : List ℚ := []
  Categories : List (Int × List ℚ) := []
  Reading : ℚ := 0
  Interval : Int := 0
  deriving DecidableEq, Repr

/-- Go `Request`. -/
structure Request where
  Name : String := ""
  Start : Int := 0
  End : Int := 0
  Duration : Int := 0
  Version : Int := 0
  Debug : Bool := false
  RecordCount : Int := 0
  Records : List SenMLRecord := []
  Units : List Unit := []
  deriving DecidableEq, Repr

/-- Result of a Go call: the returned `(value, error)` pair, or a run-time panic. -/
inductive Outcome (α : Type) where
  | ret (val : α) (err : Option String)
  | panic (msg : String)
  deriving DecidableEq, Repr

/-- One consumption of the random source inside the step loop. -/
structure Draw where
  category : Int
  fraction : ℚ
  deriving DecidableEq, Repr

/-! ## `New` -/

/-- The loop `for _, unit := range request.Units` of `New`: adds
`request.Duration / unit.Interval` to `RecordCount` for each unit; `none` is the
integer-divide-by-zero panic. -/
def newCountLoop (request : Request) : List Unit → Option Request
  | [] => some request
  | unit :: rest =>
    if unit.Interval = 0 then none
    else
      newCountLoop
        { request with
          RecordCount := add64 request.RecordCount (div64 request.Duration unit.Interval) }
        rest

/-- Go `New`. -/
def New (request : Request) : Outcome Request :=
  if sub64 request.End request.Start < 0 then
    .ret {} (some "end time before start time")
  else if request.Units.length < 1 then
    .ret request (some "no units provided")
  else
    let request := { request with Duration := sub64 request.End request.Start }
    match newCountLoop request request.Units with
    | none => .panic "runtime error: integer divide by zero"
    | some request => .ret request none

/-! ## `createRecord` -/

/-- Go `(*Request).createRecord`.  The first component of the result is the
receiver after the call. -/
def createRecord (r : Request) (value : ℚ) (unit : String) (time : Int) :
    Request × SenMLRecord × Option String :=
  if time < r.Start then
    (r, {}, some "record time before start time")
  else
    (r,
     { BaseName := r.Name
       BaseTime := float64 r.Start
       BaseVersion := r.Version
       Time := float64 (sub64 time r.Start)
       Value := some value
       Unit := unit },
     none)

/-! ## `generateUnit` -/

/-- Go `make([]senml.SenMLRecord, 0, n)` panics: the capacity `n` is negative, or
it is above `maxCap`, the number of records that fit the largest allocation of the
platform. -/
def makeFails (maxCap n : Int) : Prop := n < 0 ∨ maxCap < n

instance (maxCap n : Int) : Decidable (makeFails maxCap n) := by
  unfold makeFails
  infer_instance

/-- State carried by the step loop of `generateUnit`: the receiver, the unit behind
the pointer, the position in the random sequence, and the records appended so far. -/
structure UnitRun where
  request : Request
  unit : Unit
  pos : Nat
  records : List SenMLRecord
  deriving DecidableEq, Repr

/-- The map read `unit.Categories[category]`: a missing key yields the nil slice. -/
def categoryLookup (unit : Unit) (category : Int) : List ℚ :=
  (unit.Categories.lookup category).getD []

/-- The two containment checks of the loop body, applied in source order to the
drawn reading. -/
def contain (unit : Unit) (reading : ℚ) : ℚ :=
  let reading :=
    if unit.UseCeiling = true ∧ unit.Reading + reading > unit.Ceiling then -reading else reading
  let reading :=
    if unit.UseFloor = true ∧ unit.Reading - reading < unit.Floor then -reading else reading
  reading

/-- The loop `for i := 0; i < iterations; i++` of `generateUnit`, with `n` the
number of iterations still to run and `i` the loop counter. -/
def generateUnitLoop (draws : Nat → Draw) : Nat → Int → UnitRun → Outcome UnitRun
  | 0, _, st => .ret st none
  | n + 1, i, st =>
    let category := (draws st.pos).category
    match categoryLookup st.unit category with
    | lower :: upper :: _ =>
      let reading := (draws st.pos).fraction * (upper - lower)
      let reading := contain st.unit reading
      let time := add64 st.request.Start (mul64 i st.unit.Interval)
      match createRecord st.request reading st.unit.Symbol time with
      | (r, _, some _) =>
        .ret { request := r, unit := st.unit, pos := st.pos + 1, records := [] }
          (some "failed to create record")
      | (r, record, none) =>
        generateUnitLoop draws n (i + 1)
          { request := r
            unit := { st.unit with Reading := st.unit.Reading + reading }
            pos := st.pos + 1
            records := st.records ++ [record] }
    | _ => .panic "runtime error: index out of range"

/-- Go `(*Request).generateUnit`, reading the random sequence from position `pos`,
on a platform whose `make` allocates at most `maxCap` records.  The result carries
the receiver and the unit after the call, the next position and the returned
records. -/
def generateUnit (maxCap : Int) (draws : Nat → Draw) (r : Request) (unit : Unit) (pos : Nat) :
    Outcome UnitRun :=
  if unit.Interval = 0 then .panic "runtime error: integer divide by zero"
  else
    let iterations := div64 r.Duration unit.Interval
    if makeFails maxCap iterations then .panic "runtime error: makeslice: cap out of range"
    else
      generateUnitLoop draws iterations.toNat 0
        { request := r, unit := unit, pos := pos, records := [] }

/-! ## `Generate` -/

/-- The loop `for _, unit := range r.Units` of `Generate`.  Each `unit` is a copy
of the slice element, so the unit state that `generateUnit` leaves behind its
pointer is dropped at the end of the iteration. -/
def generateLoop (maxCap : Int) (draws : Nat → Draw) (r : Request) (pos : Nat) :
    List Unit → Outcome (Request × List SenMLRecord)
  | [] => .ret (r, r.Records) none
  | unit :: rest =>
    match generateUnit maxCap draws r unit pos with
    | .panic msg => .panic msg
    | .ret run (some _) => .ret (run.request, []) (some "failed to generate unit record set")
    | .ret run none =>
      generateLoop maxCap draws { run.request with Records := run.request.Records ++ run.records }
        run.pos rest

/-- Go `(*Request).Generate`, run on the random sequence `draws`, on a platform
whose `make` allocates at most `maxCap` records.  The result carries the receiver
after the call and the returned records. -/
def Generate (maxCap : Int) (draws : Nat → Draw) (r : Request) :
    Outcome (Request × List SenMLRecord) :=
  if makeFails maxCap r.RecordCount then .panic "runtime error: makeslice: cap out of range"
  else generateLoop maxCap draws { r with Records := [] } 0 r.Units

/-! ## Auxiliary predicates and specification functions -/

/-- The request is a value of the Go type: its `int64` fields hold `int64` values. -/
def Request.IsGo (r : Request) : Prop :=
  isInt64 r.Start ∧ isInt64 r.End ∧ isInt64 r.Duration ∧ isInt64 r.RecordCount ∧
    ∀ u ∈ r.Units, isInt64 u.Interval

instance (r : Request) : Decidable r.IsGo := by
  unfold Request.IsGo; infer_instance

/-- The number of records the spec assigns to a window of length `duration`:
the sum over the units of `floor(duration / unit.Interval)`. -/
def specRecordCount (duration : Int) (units : List Unit) : Int :=
  (units.map fun u => duration / u.Interval).sum

/-- Number of iterations of the step loop of `generateUnit` for unit `u`. -/
def steps (r : Request) (u : Unit) : Nat := (div64 r.Duration u.Interval).toNat

/-- The list `block` is what `generateUnit` returns for unit `u` at some point of a
run of `Generate` on `r` (the `Records` already collected are `prior`). -/
def UnitBlock (maxCap : Int) (draws : Nat → Draw)
    (r : Request) (u : Unit) (block : List SenMLRecord) : Prop :=
  ∃ prior pos run,
    generateUnit maxCap draws { r with Records := prior } u pos = .ret run none ∧ run.records = block

/-- The (symbol, offset) pairs the spec expects from a window of length `duration`:
for each unit in order, `k * Interval` for `k = 0 .. floor(duration / Interval) - 1`. -/
def specOffsets (duration : Int) (units : List Unit) : List (String × ℚ) :=
  units.flatMap fun u =>
    (List.range (duration / u.Interval).toNat).map fun (k : Nat) =>
      (u.Symbol, (((k : Int) * u.Interval : Int) : ℚ))

/-- The (symbol, offset) pairs as the records store them: the offsets of
`specOffsets`, each converted to `float64`. -/
def storedOffsets (duration : Int) (units : List Unit) : List (String × ℚ) :=
  units.flatMap fun u =>
    (List.range (duration / u.Interval).toNat).map fun (k : Nat) =>
      (u.Symbol, float64 ((k : Int) * u.Interval))

/-- The unit's category table is complete: every index of `Probability` has an
entry with its two bounds. -/
def CompleteTables (u : Unit) : Prop :=
  ∀ c : Int, 0 ≤ c → c < u.Probability.length → 2 ≤ (categoryLookup u c).length

/-- A draw the sampler of unit `u` can produce: an index of `Probability` and a
fraction in `[0, 1)`. -/
def SamplerDraw (u : Unit) (d : Draw) : Prop :=
  0 ≤ d.category ∧ d.category < u.Probability.length ∧ 0 ≤ d.fraction ∧ d.fraction < 1

/-- The sequence `draws`, read from position `pos`, is one the samplers of the
units can produce: the draws consumed by each unit's loop satisfy `SamplerDraw`
for that unit. -/
def SamplerDraws (draws : Nat → Draw) (r : Request) : Nat → List Unit → Prop
  | _, [] => True
  | pos, u :: rest =>
    (∀ k, k < steps r u → SamplerDraw u (draws (pos + k))) ∧
      SamplerDraws draws r (pos + steps r u) rest

/-- The records of `block` are those of unit `u` in step order: each carries the
unit's symbol, and the `k`-th has the offset of step `k`, the `int64` product
`k * Interval` converted to `float64`. -/
def StepOrdered (u : Unit) (block : List SenMLRecord) : Prop :=
  (∀ rec ∈ block, rec.Unit = u.Symbol) ∧
    block.map (fun rec => rec.Time) =
      (List.range block.length).map fun (k : Nat) =>
        float64 (wrap64 ((k : Int) * u.Interval))

/-- The largest delta magnitude of one step: the maximum over the unit's categories
of `|upper - lower|` (0 when there is no category). -/
def maxSpan (u : Unit) : ℚ :=
  u.Categories.foldr
    (fun entry m =>
      match entry.2 with
      | lower :: upper :: _ => max |upper - lower| m
      | _ => m)
    0

/-- Every category of the unit that a draw can reach has `lower <= upper`. -/
def NonnegSpans (u : Unit) : Prop :=
  ∀ (c : Int) (lower upper : ℚ) (rest : List ℚ),
    categoryLookup u c = lower :: upper :: rest → lower ≤ upper

/-- The `Reading` of the unit when the call returned without error. -/
def finalReading : Outcome UnitRun → Option ℚ
  | .ret run none => some run.unit.Reading
  | _ => none

/-- Number of draws consumed by successful calls of `generateUnit` on `units`. -/
def drawsConsumed (r : Request) (units : List Unit) : Nat := (units.map (steps r)).sum

/-- The condition of the ceiling check of the loop body, on the drawn reading. -/
def ceilingCheck (unit : Unit) (reading : ℚ) : Prop :=
  unit.UseCeiling = true ∧ unit.Reading + reading > unit.Ceiling

/-- The condition of the floor check of the loop body, on the reading left by the
ceiling check. -/
def floorCheck (unit : Unit) (reading : ℚ) : Prop :=
  unit.UseFloor = true ∧ unit.Reading - reading < unit.Floor

instance (unit : Unit) (reading : ℚ) : Decidable (ceilingCheck unit reading) := by
  unfold ceilingCheck; infer_instance

instance (unit : Unit) (reading : ℚ) : Decidable (floorCheck unit reading) := by
  unfold floorCheck; infer_instance

/-! ## Concrete inputs -/

/-- A 24-hour window with one unit of interval 900 and a caller-set `RecordCount`. -/
def presetCountRequest : Request :=
  { Start := 0, End := 86400, RecordCount := 5, Units := [{ Interval := 900 }] }

/-- The window `0 .. MaxInt64` sampled every second by two units. -/
def overflowCountRequest : Request :=
  { Start := 0, End := 9223372036854775807, Units := [{ Interval := 1 }, { Interval := 1 }] }

/-- The 24-hour window of the test `calculate-interval`. -/
def dayRequest : Request :=
  { Start := 0, End := 86400, Units := [{ Interval := 900 }] }

/-- A window that runs from `MaxInt64` back to `MinInt64`. -/
def backwardsRequest : Request :=
  { Start := 9223372036854775807, End := -9223372036854775808, Units := [{ Interval := 1 }] }

/-- A forward window whose length does not fit `int64`. -/
def longRequest : Request :=
  { Start := -1, End := 9223372036854775807, Units := [{ Interval := 1 }] }

/-- A request whose window starts one second before the epoch. -/
def earlyRequest : Request := { Name := "test", Start := -1, Version := 1 }

/-- A request whose start, `2^53 + 1`, is not a `float64`. -/
def lateRequest : Request := { Name := "test", Start := 9007199254740993, Version := 1 }

/-- A request whose only unit has the zero value of `Interval`. -/
def zeroIntervalRequest : Request :=
  { Name := "test", Start := 0, End := 10, Units := [{ Interval := 0 }] }

/-- The unit of the package example. -/
def meterUnit : Unit :=
  { Name := "Volume", Symbol := "L", Probability := [7 / 10, 2 / 10, 1 / 10],
    Categories := [(0, [0, 0]), (1, [1 / 10, 19]), (2, [191 / 10, 567812 / 10000])],
    Reading := 0, Interval := 900 }

/-- The request of the package example, on the window `0 .. 86400`. -/
def meterInput : Request :=
  { Name := "test:meter:1", Start := 0, End := 86400, Units := [meterUnit] }

/-- The normalized request `New` returns for `meterInput`. -/
def meterRequest : Request := { meterInput with Duration := 86400, RecordCount := 96 }

/-- The capacity limit of `make` in the concrete examples, `2^32` records.  Each
example asks `make` for at most 96 records, or for a negative number, or for more
than `2^62`. -/
def exampleCap : Int := 2 ^ 32

/-- A sequence of draws that always picks category 1 and the fraction one half. -/
def midDraws : Nat → Draw := fun _ => { category := 1, fraction := 1 / 2 }

/-- The example window with a caller-set negative `RecordCount`. -/
def negativeCountInput : Request := { meterInput with RecordCount := -100 }

/-- A window that wraps around the end of `int64`, with the example unit sampled
every second. -/
def wrappedInput : Request :=
  { Name := "test:meter:1", Start := 9223372036854775806, End := -9223372036854775807,
    Units := [{ meterUnit with Interval := 1 }] }

/-- A window of three steps of `2^53 + 1` seconds each. -/
def bigStepInput : Request :=
  { Name := "test:meter:1", Start := 0, End := 27021597764222979,
    Units := [{ meterUnit with Interval := 9007199254740993 }] }

/-- The normalized request `New` returns for `bigStepInput`. -/
def bigStepRequest : Request :=
  { bigStepInput with Duration := 27021597764222979, RecordCount := 3 }

/-- The record that `bigStepRequest` produces on `midDraws` with the offset `t`. -/
def bigStepRecord (t : ℚ) : SenMLRecord :=
  { BaseName := "test:meter:1", BaseTime := 0, BaseVersion := 0, Time := t,
    Value := some (189 / 20), Unit := "L" }

/-- The records `Generate` returns for `bigStepRequest` on `midDraws`. -/
def bigStepRecords : List SenMLRecord :=
  [bigStepRecord 0, bigStepRecord 9007199254740992, bigStepRecord 18014398509481984]

/-- A window of `2^62 + 1` seconds, with the example unit sampled every second. -/
def hugeInput : Request :=
  { Name := "test:meter:1", Start := 0, End := 4611686018427387905,
    Units := [{ meterUnit with Interval := 1 }] }

/-- The normalized request `New` returns for `hugeInput`. -/
def hugeRequest : Request :=
  { hugeInput with Duration := 4611686018427387905, RecordCount := 4611686018427387905 }

/-- A second unit, with both containment checks switched on. -/
def thermoUnit : Unit :=
  { Name := "Temperature", Symbol := "Cel", UseFloor := true, UseCeiling := true,
    Floor := -1, Ceiling := 1, Probability := [1 / 2, 1 / 2],
    Categories := [(0, [0, 0]), (1, [0, 3])], Reading := 0, Interval := 1 }

/-- A four-second window with two units. -/
def walkInput : Request :=
  { Name := "test", Start := 10, End := 14, Version := 1,
    Units := [{ meterUnit with Interval := 2 }, thermoUnit] }

/-- The normalized request `New` returns for `walkInput`. -/
def walkRequest : Request := { walkInput with Duration := 4, RecordCount := 6 }

/-- The record that `walkRequest` produces at offset `t` for symbol `sym`. -/
def walkRecord (sym : String) (t value : ℚ) : SenMLRecord :=
  { BaseName := "test", BaseTime := 10, BaseVersion := 1, Time := t, Value := some value,
    Unit := sym }

/-- The records `Generate` returns for `walkRequest` on `midDraws`. -/
def walkRecords : List SenMLRecord :=
  [walkRecord "L" 0 (189 / 20), walkRecord "L" 2 (189 / 20),
   walkRecord "Cel" 0 (-3 / 2), walkRecord "Cel" 1 (-3 / 2),
   walkRecord "Cel" 2 (-3 / 2), walkRecord "Cel" 3 (-3 / 2)]

/-- A unit with a ceiling at 3/4 and one category of span 1. -/
def cappedUnit : Unit :=
  { Name := "Level", Symbol := "m", UseCeiling := true, Ceiling := 3 / 4,
    Probability := [1], Categories := [(0, [0, 1])], Reading := 0, Interval := 1 }

/-- A one-second window over `cappedUnit`, already normalized. -/
def cappedRequest : Request :=
  { Name := "test", Start := 0, End := 1, Duration := 1, RecordCount := 1, Units := [cappedUnit] }

/-- A sequence of draws that always picks category 0 and the fraction one half. -/
def halfDraws : Nat → Draw := fun _ => { category := 0, fraction := 1 / 2 }

/-- The single record `cappedRequest` produces with value `v`. -/
def cappedRecord (v : ℚ) : SenMLRecord :=
  { BaseName := "test", BaseTime := 0, BaseVersion := 0, Time := 0, Value := some v, Unit := "m" }

/-- A request that makes `generateUnit` take `n` steps on a unit of interval 1. -/
def stepsRequest (n : Int) : Request := { Name := "test", Start := 0, End := n, Duration := n }

/-- A unit whose `Reading` starts far above its ceiling. -/
def hotUnit : Unit := { cappedUnit with Ceiling := 0, Reading := 100 }

/-- A unit whose floor lies above its ceiling. -/
def crossedUnit : Unit := { cappedUnit with Ceiling := 0, UseFloor := true, Floor := 100 }

/-- A unit whose only category has `upper < lower`, starting just above its ceiling. -/
def invertedUnit : Unit :=
  { cappedUnit with Ceiling := 0, Categories := [(0, [1, 0])], Reading := 9 / 10 }

/-- The request of the test `error-on-negative-duration`: a 24-hour window with
only `Name`, `Start` and `End` set. -/
def noUnitsRequest : Request := { Name := "test", Start := 0, End := 86400 }

/-- A window that wraps around the end of `int64`, with a first unit that takes
one step and a second that takes three. -/
def wrappedTwoInput : Request :=
  { Name := "test:meter:1", Start := 9223372036854775806, End := -9223372036854775807,
    Units := [{ meterUnit with Interval := 3 }, { meterUnit with Interval := 1 }] }

/-- The normalized request `New` returns for `wrappedTwoInput`. -/
def wrappedTwoRequest : Request := { wrappedTwoInput with Duration := 3, RecordCount := 4 }

/-- The one record the first unit of `wrappedTwoRequest` produces on `midDraws`;
its `BaseTime` is the start `2^63 - 2` converted to `float64`. -/
def wrappedRecord : SenMLRecord :=
  { BaseName := "test:meter:1", BaseTime := 9223372036854775808, BaseVersion := 0, Time := 0,
    Value := some (189 / 20), Unit := "L" }

/-- The state in which `crossedUnit` starts a one-step loop. -/
def crossedStart : UnitRun :=
  { request := stepsRequest 1, unit := crossedUnit, pos := 0, records := [] }

/-- The state after one step from `crossedStart` on `halfDraws`. -/
def crossedAfterOne : UnitRun :=
  { request := stepsRequest 1, unit := { crossedUnit with Reading := 1 / 2 }, pos := 1,
    records := [cappedRecord (1 / 2)] }

/-- A unit with a floor at -1, no ceiling, and one category of span 3. -/
def flooredUnit : Unit :=
  { Name := "Level", Symbol := "m", UseFloor := true, Floor := -1, Probability := [1],
    Categories := [(0, [0, 3])], Reading := 0, Interval := 1 }

/-- A request with a negative `Duration`, as a caller can build it by hand. -/
def reversedRequest : Request := { Name := "test", Start := 0, End := -2, Duration := -2 }

/-- A unit whose sampler has two categories while its table has an entry for the
first one only. -/
def gappedUnit : Unit := { cappedUnit with Probability := [1 / 2, 1 / 2] }

/-- A unit whose second category has a single bound. -/
def shortUnit : Unit :=
  { cappedUnit with Probability := [1 / 2, 1 / 2], Categories := [(0, [0, 1]), (1, [5])] }

/-- The state in which `gappedUnit` starts the loop of `cappedRequest`. -/
def gappedStart : UnitRun :=
  { request := { cappedRequest with Units := [gappedUnit], Records := [] }, unit := gappedUnit,
    pos := 0, records := [] }

/-! ## Machine-integer lemmas -/

theorem wrap64_of_isInt64 {x : Int} (h : isInt64 x) : wrap64 x = x := by
  unfold isInt64 at h
  unfold wrap64
  omega

theorem wrap64_isInt64 (x : Int) : isInt64 (wrap64 x) := by
  unfold isInt64 wrap64
  omega

theorem wrap64_add_wrap64 (a b : Int) : wrap64 (wrap64 a + b) = wrap64 (a + b) := by
  unfold wrap64
  omega

theorem div64_of_pos {d i : Int} (hd0 : 0 ≤ d) (hd : d < 2 ^ 63) (hi : 0 < i) :
    div64 d i = d / i := by
  unfold div64
  rw [Int.tdiv_eq_ediv hd0 (le_of_lt hi)]
  apply wrap64_of_isInt64
  have h1 : 0 ≤ d / i := Int.ediv_nonneg hd0 (le_of_lt hi)
  have h2 : d / i ≤ d := Int.ediv_le_self _ hd0
  unfold isInt64
  omega

/-- Integers of magnitude up to `2^53` are converted to `float64` exactly. -/
theorem float64_exact {x : Int} (h : x.natAbs ≤ 2 ^ 53) : float64 x = (x : ℚ) := by
  unfold float64 float64OfNat
  rw [if_pos h]
  by_cases hx : x < 0
  · rw [if_pos hx]
    have habs : (x.natAbs : Int) = -x := by omega
    rw [← Int.cast_natCast, habs]
    push_cast
    ring
  · rw [if_neg hx]
    have habs : (x.natAbs : Int) = x := by omega
    rw [← Int.cast_natCast, habs]

/-- The shift `float64OfNat` picks for a magnitude in `[2^(52+s), 2^(53+s))` is `s`. -/
theorem float64OfNat_shift (a s : Nat) (hs : s < 12) (hlo : 2 ^ (52 + s) ≤ a)
    (hhi : a < 2 ^ (53 + s)) :
    ((List.range 12).find? fun t => a < 2 ^ (53 + t)).getD 11 = s := by
  have h12 : List.range 12 = [0, 1, 2, 3, 4, 5, 6, 7, 8, 9, 10, 11] := by decide
  rw [h12]
  interval_cases s <;> norm_num at hlo hhi <;> simp only [List.find?] <;> norm_num <;>
    (repeat' split) <;> simp_all <;> omega

/-- A magnitude in `(2^53, 2^63]` lies in one of the eleven ranges
`[2^(52+s), 2^(53+s))`, `s = 1 .. 11`. -/
theorem float64OfNat_binade (a : Nat) (h0 : 2 ^ 53 < a) (h1 : a ≤ 2 ^ 63) :
    ∃ s, 1 ≤ s ∧ s < 12 ∧ 2 ^ (52 + s) ≤ a ∧ a < 2 ^ (53 + s) := by
  by_contra hne
  push_neg at hne
  have a1 := hne 1 (by decide) (by decide)
  have a2 := hne 2 (by decide) (by decide)
  have a3 := hne 3 (by decide) (by decide)
  have a4 := hne 4 (by decide) (by decide)
  have a5 := hne 5 (by decide) (by decide)
  have a6 := hne 6 (by decide) (by decide)
  have a7 := hne 7 (by decide) (by decide)
  have a8 := hne 8 (by decide) (by decide)
  have a9 := hne 9 (by decide) (by decide)
  have a10 := hne 10 (by decide) (by decide)
  have a11 := hne 11 (by decide) (by decide)
  norm_num at a1 a2 a3 a4 a5 a6 a7 a8 a9 a10 a11 h0 h1
  omega

/-- The conversion rounds to the nearest `float64`, ties to even: for a magnitude
`a ≤ 2^63`, `float64OfNat a` is `m * 2^s`, where `2^s` is the spacing of the
`float64` numbers around `a` (`s = 0`, or `a` in `[2^(52+s), 2^(53+s))`), the
distance to `a` is at most half that spacing, and `m` is even when `a` is halfway
between two neighbours. -/
theorem float64OfNat_nearest (a : Nat) (ha : a ≤ 2 ^ 63) :
    ∃ m s, float64OfNat a = m * 2 ^ s ∧
      (s = 0 ∨ 2 ^ (52 + s) ≤ a ∧ a < 2 ^ (53 + s)) ∧
      2 * a ≤ (2 * m + 1) * 2 ^ s ∧ 2 * m * 2 ^ s ≤ 2 * a + 2 ^ s ∧
      (2 * a = (2 * m + 1) * 2 ^ s → m % 2 = 0) ∧
      (2 * m * 2 ^ s = 2 * a + 2 ^ s → m % 2 = 0) := by
  by_cases hsmall : a ≤ 2 ^ 53
  · refine ⟨a, 0, ?_, Or.inl rfl, ?_, ?_, ?_, ?_⟩
    · unfold float64OfNat; rw [if_pos hsmall]; simp
    all_goals norm_num
  · obtain ⟨s, hs1, hs2, hlo, hhi⟩ := float64OfNat_binade a (by omega) ha
    have hshift := float64OfNat_shift a s hs2 hlo hhi
    unfold float64OfNat
    rw [if_neg hsmall]
    simp only [hshift]
    generalize hq : 2 ^ s = q
    have hp : a / q * q + a % q = a := Nat.div_add_mod' a q
    have hrest : a % q < q := Nat.mod_lt _ (by rw [← hq]; positivity)
    generalize a / q = m at hp ⊢
    generalize a % q = rest at hp hrest ⊢
    generalize hmq : m * q = p at hp
    have e1 : (2 * m + 1) * q = 2 * p + q := by rw [← hmq]; ring
    have e2 : 2 * m * q = 2 * p := by rw [← hmq]; ring
    have e3 : (2 * (m + 1) + 1) * q = 2 * p + 3 * q := by rw [← hmq]; ring
    have e4 : 2 * (m + 1) * q = 2 * p + 2 * q := by rw [← hmq]; ring
    have e5 : (m + 1) * q = p + q := by rw [← hmq]; ring
    by_cases h1 : 2 * rest < q
    · rw [if_pos h1]
      refine ⟨m, s, by rw [hq, hmq], Or.inr ⟨hlo, hhi⟩, ?_, ?_, ?_, ?_⟩ <;> rw [hq] <;>
        simp only [e1, e2, hmq] <;> omega
    · rw [if_neg h1]
      by_cases h2 : 2 * rest = q ∧ m % 2 = 0
      · rw [if_pos h2]
        refine ⟨m, s, by rw [hq, hmq], Or.inr ⟨hlo, hhi⟩, ?_, ?_, ?_, ?_⟩ <;> rw [hq] <;>
          simp only [e1, e2, hmq] <;> omega
      · rw [if_neg h2]
        refine ⟨m + 1, s, by rw [hq], Or.inr ⟨hlo, hhi⟩, ?_, ?_, ?_, ?_⟩ <;> rw [hq] <;>
          simp only [e3, e4, e5, hmq] <;> omega

/-- A capacity between 0 and the limit is allocated. -/
theorem not_makeFails {maxCap n : Int} (h0 : 0 ≤ n) (h1 : n ≤ maxCap) :
    ¬ makeFails maxCap n := by
  unfold makeFails
  omega

/-! ## `New` -/

theorem newCountLoop_eq (units : List Unit) :
    ∀ req : Request, 0 ≤ req.Duration → req.Duration < 2 ^ 63 → isInt64 req.RecordCount →
      (∀ u ∈ units, 0 < u.Interval) →
      newCountLoop req units =
        some { req with
          RecordCount := wrap64 (req.RecordCount + specRecordCount req.Duration units) } := by
  induction units with
  | nil =>
    intro req _ _ hrc _
    simp [newCountLoop, specRecordCount, wrap64_of_isInt64 hrc]
  | cons u rest ih =>
    intro req hd0 hd hrc hpos
    have hu : 0 < u.Interval := hpos u (List.mem_cons_self _ _)
    have hne : u.Interval ≠ 0 := ne_of_gt hu
    rw [newCountLoop, if_neg hne]
    have hrest := ih
      { req with RecordCount := add64 req.RecordCount (div64 req.Duration u.Interval) }
      hd0 hd (wrap64_isInt64 _) (fun v hv => hpos v (List.mem_cons_of_mem _ hv))
    rw [hrest]
    simp only [add64, div64_of_pos hd0 hd hu, specRecordCount, List.map_cons, List.sum_cons,
      wrap64_add_wrap64, add_assoc]

theorem specRecordCount_nonneg {d : Int} (hd : 0 ≤ d) (units : List Unit)
    (hpos : ∀ u ∈ units, 0 < u.Interval) : 0 ≤ specRecordCount d units := by
  unfold specRecordCount
  apply List.sum_nonneg
  intro x hx
  obtain ⟨u, hu, rfl⟩ := List.mem_map.1 hx
  exact Int.ediv_nonneg hd (le_of_lt (hpos u hu))

theorem sub64_nonneg_iff {a b : Int} (ha : isInt64 a) (hb : isInt64 b) (hab : b ≤ a) :
    ¬ sub64 a b < 0 ↔ a - b < 2 ^ 63 := by
  unfold isInt64 at ha hb
  unfold sub64 wrap64
  omega

theorem sub64_of_fits {a b : Int} (hab : b ≤ a) (hfit : a - b < 2 ^ 63) :
    sub64 a b = a - b := by
  unfold sub64 wrap64
  omega

/-- What `New` returns once both of its checks pass and every interval is positive. -/
theorem New_of_checks_pass (req : Request) (hwin : ¬ sub64 req.End req.Start < 0)
    (hne : req.Units ≠ []) (hpos : ∀ u ∈ req.Units, 0 < u.Interval)
    (hrc : isInt64 req.RecordCount) :
    New req = .ret
      { req with
        Duration := sub64 req.End req.Start
        RecordCount :=
          wrap64 (req.RecordCount + specRecordCount (sub64 req.End req.Start) req.Units) }
      none := by
  have hlen : ¬ req.Units.length < 1 := by
    cases hu : req.Units with
    | nil => exact absurd hu hne
    | cons _ _ => simp
  have hd := (wrap64_isInt64 (req.End - req.Start)).2
  unfold New
  rw [if_neg hwin, if_neg hlen]
  have hloop := newCountLoop_eq req.Units { req with Duration := sub64 req.End req.Start }
    (not_lt.1 hwin) hd hrc hpos
  simp only at hloop ⊢
  rw [hloop]

/-- `New` returns an error exactly when one of its two checks fires. -/
theorem New_error_iff (req : Request) :
    (∃ r e, New req = .ret r (some e)) ↔
      sub64 req.End req.Start < 0 ∨ req.Units = [] := by
  unfold New
  by_cases hwin : sub64 req.End req.Start < 0
  · simp [hwin]
  · by_cases hlen : req.Units.length < 1
    · have : req.Units = [] := by
        cases hu : req.Units with
        | nil => rfl
        | cons _ _ => rw [hu] at hlen; simp at hlen
      simp [hwin, this]
    · have hne : req.Units ≠ [] := by
        intro h; rw [h] at hlen; simp at hlen
      rw [if_neg hwin, if_neg hlen]
      simp only [hwin, hne, or_self, iff_false]
      rintro ⟨r, e, h⟩
      cases hloop : newCountLoop { req with Duration := sub64 req.End req.Start } req.Units with
      | none => rw [hloop] at h; simp at h
      | some r2 => rw [hloop] at h; simp at h

/-- C1 (counterexample): `New` accepts the 24-hour window with one unit of interval
900 whose `RecordCount` field was preset to 5, and returns `RecordCount = 101`,
not the sum `96` of `floor(Duration / Interval)`; and on the window `0 .. MaxInt64`
with two units of interval 1 it returns `RecordCount = -2`, the sum being `2^64 - 2`. -/
theorem New_presetCount_counterexample :
    (presetCountRequest.Start ≤ presetCountRequest.End ∧
      presetCountRequest.Units ≠ [] ∧
      (∀ u ∈ presetCountRequest.Units, 0 < u.Interval) ∧
      New presetCountRequest =
        .ret { presetCountRequest with Duration := 86400, RecordCount := 101 } none ∧
      specRecordCount 86400 presetCountRequest.Units = 96) ∧
    (overflowCountRequest.Start ≤ overflowCountRequest.End ∧
      (∀ u ∈ overflowCountRequest.Units, 0 < u.Interval) ∧
      New overflowCountRequest =
        .ret { overflowCountRequest with Duration := 9223372036854775807, RecordCount := -2 }
          none ∧
      specRecordCount 9223372036854775807 overflowCountRequest.Units = 18446744073709551614) := by
  decide

/-- C1 (amended): for a request of `int64` values with `End >= Start`, at least one
unit, positive intervals and `RecordCount = 0`, `New` accepts exactly when
`End - Start < 2^63`, and the request it returns has `Duration = End - Start` and,
whenever the sum over the units of `floor(Duration / Interval)` is below `2^63`,
`RecordCount` equal to that sum. -/
theorem New_duration_recordCount (req : Request) (hgo : req.IsGo)
    (horder : req.Start ≤ req.End) (hne : req.Units ≠ [])
    (hpos : ∀ u ∈ req.Units, 0 < u.Interval) (hzero : req.RecordCount = 0) :
    ((∃ r, New req = .ret r none) ↔ req.End - req.Start < 2 ^ 63) ∧
      ∀ r, New req = .ret r none →
        r.Duration = req.End - req.Start ∧
        (specRecordCount r.Duration req.Units < 2 ^ 63 →
          r.RecordCount = specRecordCount r.Duration req.Units) := by
  obtain ⟨hs, he, _, hrc, _⟩ := hgo
  have hiff := sub64_nonneg_iff he hs horder
  by_cases hwin : sub64 req.End req.Start < 0
  · have hnofit : ¬ req.End - req.Start < 2 ^ 63 := fun h => (hiff.2 h) hwin
    have hnew : New req = .ret {} (some "end time before start time") := by
      unfold New; rw [if_pos hwin]
    constructor
    · constructor
      · rintro ⟨r, h⟩; rw [hnew] at h; simp at h
      · intro h; exact absurd h hnofit
    · intro r h; rw [hnew] at h; simp at h
  · have hfit : req.End - req.Start < 2 ^ 63 := hiff.1 hwin
    have hnew := New_of_checks_pass req hwin hne hpos hrc
    have hdur := sub64_of_fits horder hfit
    constructor
    · exact ⟨fun _ => hfit, fun _ => ⟨_, hnew⟩⟩
    · intro r h
      rw [hnew] at h
      injection h with h _
      subst h
      simp only [hzero, zero_add]
      refine ⟨hdur, ?_⟩
      intro hsum
      apply wrap64_of_isInt64
      have hnn : 0 ≤ specRecordCount (sub64 req.End req.Start) req.Units :=
        specRecordCount_nonneg (not_lt.1 hwin) _ hpos
      unfold isInt64
      omega

/-- C1 (witness): the 24-hour window with one unit of interval 900 is accepted with
`Duration = 86400` and `RecordCount = 96`. -/
theorem New_duration_recordCount_day :
    New dayRequest = .ret { dayRequest with Duration := 86400, RecordCount := 96 } none ∧
      (86400 : Int) = dayRequest.End - dayRequest.Start ∧
      (96 : Int) = specRecordCount 86400 dayRequest.Units := by
  have h := (New_duration_recordCount dayRequest (by decide) (by decide) (by decide)
    (by decide) (by decide)).2 { dayRequest with Duration := 86400, RecordCount := 96 } (by decide)
  exact ⟨by decide, h.1, h.2 (by decide)⟩

/-- C2 (failing input): for the window from `MaxInt64` back to `MinInt64`, with one
unit, `End < Start` and yet `New` returns no error (it derives `Duration = 1`);
for the forward window from `-1` to `MaxInt64`, with one unit, `New` returns the
"end time before start time" error. -/
theorem New_backwards_window_accepted :
    backwardsRequest.IsGo ∧ backwardsRequest.End < backwardsRequest.Start ∧
      New backwardsRequest = .ret { backwardsRequest with Duration := 1, RecordCount := 1 } none ∧
      longRequest.IsGo ∧ longRequest.Start ≤ longRequest.End ∧ longRequest.Units ≠ [] ∧
      New longRequest = .ret {} (some "end time before start time") := by
  decide

/-! ## `createRecord` -/

theorem createRecord_request (r : Request) (value : ℚ) (unit : String) (time : Int) :
    (createRecord r value unit time).1 = r := by
  unfold createRecord
  split <;> rfl

/-- C3 (counterexample): two records whose times are not the claimed ones.  On a
request with `Start = -1`, the timestamp `MaxInt64` is not before `Start`, and
`createRecord` succeeds with `Time = -2^63`, while `t - Start = 2^63`.  On a
request with `Start = 2^53 + 1` and the timestamp `t = Start`, `createRecord`
succeeds with `BaseTime = 2^53`, which is not `Start`. -/
theorem createRecord_time_counterexample :
    earlyRequest.Start ≤ 9223372036854775807 ∧ isInt64 9223372036854775807 ∧
      createRecord earlyRequest 1 "T" 9223372036854775807 =
        (earlyRequest,
         { BaseName := "test", BaseTime := -1, BaseVersion := 1,
           Time := -9223372036854775808, Value := some 1, Unit := "T" },
         none) ∧
      (9223372036854775807 : Int) - earlyRequest.Start = 9223372036854775808 ∧
      lateRequest.Start = 9007199254740993 ∧
      createRecord lateRequest 1 "T" 9007199254740993 =
        (lateRequest,
         { BaseName := "test", BaseTime := 9007199254740992, BaseVersion := 1,
           Time := 0, Value := some 1, Unit := "T" },
         none) := by
  decide!

/-- C3 (amended): for a timestamp `t >= r.Start` whose distance `t - r.Start` fits
`int64`, `createRecord` returns no error, leaves the request unchanged and returns
the record with `BaseName = r.Name`, `BaseVersion = r.Version`, the given value and
the given symbol, whose `BaseTime` is `r.Start` converted to `float64` and whose
`Time` is `t - r.Start` converted to `float64`.  `BaseTime` is `r.Start` itself
when `|r.Start| <= 2^53`, and `Time` is `t - r.Start` itself when
`t - r.Start <= 2^53`. -/
theorem createRecord_ok (r : Request) (value : ℚ) (unit : String) (t : Int)
    (ht : r.Start ≤ t) (hfit : t - r.Start < 2 ^ 63) :
    createRecord r value unit t =
      (r,
       { BaseName := r.Name
         BaseTime := float64 r.Start
         BaseVersion := r.Version
         Time := float64 (t - r.Start)
         Value := some value
         Unit := unit },
       none) ∧
      (r.Start.natAbs ≤ 2 ^ 53 → float64 r.Start = (r.Start : ℚ)) ∧
      (t - r.Start ≤ 2 ^ 53 → float64 (t - r.Start) = ((t - r.Start : Int) : ℚ)) := by
  refine ⟨?_, fun h => float64_exact h, fun h => float64_exact (by omega)⟩
  unfold createRecord
  rw [if_neg (not_lt.2 ht), sub64_of_fits ht hfit]

/-- C3 (witness): the record of the test `create-record`, 900 seconds into a
window that starts at -1. -/
theorem createRecord_ok_example :
    createRecord earlyRequest 1 "T" 899 =
      (earlyRequest,
       { BaseName := "test", BaseTime := -1, BaseVersion := 1, Time := 900,
         Value := some 1, Unit := "T" },
       none) := by
  have h := createRecord_ok earlyRequest 1 "T" 899 (by decide) (by decide)
  rw [h.1]
  decide!

/-- C4: `createRecord` returns an error exactly when the timestamp is before
`r.Start`, and whenever it returns an error the record it returns is the zero
record (and the request is unchanged). -/
theorem createRecord_error_iff (r : Request) (value : ℚ) (unit : String) (t : Int) :
    ((createRecord r value unit t).2.2 ≠ none ↔ t < r.Start) ∧
      ((createRecord r value unit t).2.2 ≠ none →
        (createRecord r value unit t).2.1 = {} ∧ (createRecord r value unit t).1 = r) := by
  unfold createRecord
  by_cases h : t < r.Start
  · simp [h]
  · simp [h]

/-- C4 (witness): a timestamp one second before the window start is refused with
the zero record. -/
theorem createRecord_error_example :
    (createRecord earlyRequest 1 "T" (-2)).2.2 ≠ none ∧
      (createRecord earlyRequest 1 "T" (-2)).2.1 = {} ∧
      (createRecord earlyRequest 1 "T" (-2)).1 = earlyRequest := by
  have h := createRecord_error_iff earlyRequest 1 "T" (-2)
  have herr : (createRecord earlyRequest 1 "T" (-2)).2.2 ≠ none := h.1.2 (by decide)
  exact ⟨herr, h.2 herr⟩

/-! ## Zero intervals in `New` -/

theorem newCountLoop_zero_interval (units : List Unit) :
    ∀ req : Request, (∃ u ∈ units, u.Interval = 0) → newCountLoop req units = none := by
  induction units with
  | nil => intro _ h; simp at h
  | cons u rest ih =>
    intro req h
    unfold newCountLoop
    by_cases hu : u.Interval = 0
    · rw [if_pos hu]
    · rw [if_neg hu]
      apply ih
      obtain ⟨v, hv, hv0⟩ := h
      rcases List.mem_cons.1 hv with rfl | hmem
      · exact absurd hv0 hu
      · exact ⟨v, hmem, hv0⟩

/-- Whenever the window check passes, a unit with `Interval = 0` makes `New` panic
with an integer division by zero. -/
theorem New_zero_interval_panics (req : Request) (hwin : ¬ sub64 req.End req.Start < 0)
    (hzero : ∃ u ∈ req.Units, u.Interval = 0) :
    New req = .panic "runtime error: integer divide by zero" := by
  have hlen : ¬ req.Units.length < 1 := by
    obtain ⟨u, hu, _⟩ := hzero
    cases hl : req.Units with
    | nil => rw [hl] at hu; simp at hu
    | cons _ _ => simp
  have hloop := newCountLoop_zero_interval req.Units
    { req with Duration := sub64 req.End req.Start } hzero
  unfold New
  rw [if_neg hwin, if_neg hlen]
  simp only at hloop ⊢
  rw [hloop]

/-- C10 (counterexample): on the window `0 .. 10` with one unit whose `Interval` is
0, `New` does not return an error: it panics with an integer division by zero. -/
theorem New_zero_interval_example :
    zeroIntervalRequest.IsGo ∧ (∃ u ∈ zeroIntervalRequest.Units, u.Interval = 0) ∧
      New zeroIntervalRequest = .panic "runtime error: integer divide by zero" := by
  refine ⟨by decide, by decide, ?_⟩
  exact New_zero_interval_panics zeroIntervalRequest (by decide) (by decide)

/-- C10 (amended): for a request with a unit whose `Interval` is 0, `New` never
returns a normalized request (a value with a nil error), and it returns the
"end time before start time" error whenever its window check fires. -/
theorem New_zero_interval_not_normalized (req : Request)
    (hzero : ∃ u ∈ req.Units, u.Interval = 0) :
    (∀ r, New req ≠ .ret r none) ∧
      (sub64 req.End req.Start < 0 →
        New req = .ret {} (some "end time before start time")) := by
  constructor
  · intro r h
    by_cases hwin : sub64 req.End req.Start < 0
    · unfold New at h
      rw [if_pos hwin] at h
      simp at h
    · rw [New_zero_interval_panics req hwin hzero] at h
      simp at h
  · intro hwin
    unfold New
    rw [if_pos hwin]

/-- C10 (witness): the window `0 .. 10` with a zero interval is never returned
normalized. -/
theorem New_zero_interval_not_normalized_example :
    (∃ u ∈ zeroIntervalRequest.Units, u.Interval = 0) ∧
      ∀ r, New zeroIntervalRequest ≠ .ret r none :=
  ⟨by decide, (New_zero_interval_not_normalized zeroIntervalRequest (by decide)).1⟩

/-! ## The step loop of `generateUnit` -/

theorem generateUnitLoop_succ (draws : Nat → Draw) (n : Nat) (i : Int) (st : UnitRun) :
    generateUnitLoop draws (n + 1) i st =
      match categoryLookup st.unit (draws st.pos).category with
      | lower :: upper :: _ =>
        if add64 st.request.Start (mul64 i st.unit.Interval) < st.request.Start then
          .ret { request := st.request, unit := st.unit, pos := st.pos + 1, records := [] }
            (some "failed to create record")
        else
          generateUnitLoop draws n (i + 1)
            { request := st.request
              unit :=
                { st.unit with
                  Reading := st.unit.Reading +
                    contain st.unit ((draws st.pos).fraction * (upper - lower)) }
              pos := st.pos + 1
              records := st.records ++
                [{ BaseName := st.request.Name
                   BaseTime := float64 st.request.Start
                   BaseVersion := st.request.Version
                   Time :=
                    float64 (sub64 (add64 st.request.Start (mul64 i st.unit.Interval))
                      st.request.Start)
                   Value := some (contain st.unit ((draws st.pos).fraction * (upper - lower)))
                   Unit := st.unit.Symbol }] }
      | _ => .panic "runtime error: index out of range" := by
  rw [generateUnitLoop]
  split
  · next lower upper rest h =>
    by_cases hlt : add64 st.request.Start (mul64 i st.unit.Interval) < st.request.Start
    · simp only [createRecord, if_pos hlt]
    · simp only [createRecord, if_neg hlt]
  · rfl

theorem stepTime_eq (start i interval : Int) :
    sub64 (add64 start (mul64 i interval)) start = wrap64 (i * interval) := by
  unfold sub64 add64 mul64 wrap64
  generalize i * interval = x
  omega

/-- A successful run of the step loop: the receiver is untouched, `n` draws are
consumed, only `Reading` changes in the unit, and `n` records are appended, the
`k`-th of them stamped with the unit's symbol and the offset of step `i + k`. -/
theorem generateUnitLoop_ok (draws : Nat → Draw) :
    ∀ (n : Nat) (i : Int) (st run : UnitRun),
      generateUnitLoop draws n i st = .ret run none →
      run.request = st.request ∧ run.pos = st.pos + n ∧
      run.unit = { st.unit with Reading := run.unit.Reading } ∧
      ∃ new, run.records = st.records ++ new ∧
        new.map (fun rec => (rec.Unit, rec.Time)) =
          (List.range n).map fun (k : Nat) =>
            (st.unit.Symbol, float64 (wrap64 ((i + (k : Int)) * st.unit.Interval))) := by
  intro n
  induction n with
  | zero =>
    intro i st run h
    simp only [generateUnitLoop, Outcome.ret.injEq, and_true] at h
    subst h
    exact ⟨rfl, rfl, rfl, [], by simp, by simp⟩
  | succ n ih =>
    intro i st run h
    rw [generateUnitLoop_succ] at h
    split at h
    · next lower upper rest hlook =>
      split at h
      · simp at h
      · obtain ⟨hreq, hpos, hunit, new, hrec, hmap⟩ := ih _ _ _ h
        simp only at hreq hpos hunit hrec hmap
        refine ⟨hreq, ?_, ?_, ?_⟩
        · rw [hpos]; omega
        · rw [hunit]
        · refine ⟨{ BaseName := st.request.Name
                    BaseTime := float64 st.request.Start
                    BaseVersion := st.request.Version
                    Time :=
                      float64 (sub64 (add64 st.request.Start (mul64 i st.unit.Interval))
                        st.request.Start)
                    Value := some (contain st.unit ((draws st.pos).fraction * (upper - lower)))
                    Unit := st.unit.Symbol } :: new, ?_, ?_⟩
          · rw [hrec]; simp
          · rw [List.map_cons, hmap, List.range_succ_eq_map, List.map_cons, List.map_map]
            simp only [stepTime_eq, Nat.cast_zero, add_zero, List.cons.injEq, true_and]
            apply List.map_congr_left
            intro k _
            simp only [Function.comp, Nat.cast_succ, Prod.mk.injEq, true_and]
            congr 2
            ring
    · simp at h

/-- A run of the step loop that returns an error returns no records. -/
theorem generateUnitLoop_error (draws : Nat → Draw) :
    ∀ (n : Nat) (i : Int) (st run : UnitRun) (e : String),
      generateUnitLoop draws n i st = .ret run (some e) →
      run.records = [] ∧ run.request = st.request ∧ e = "failed to create record" := by
  intro n
  induction n with
  | zero =>
    intro i st run e h
    simp [generateUnitLoop] at h
  | succ n ih =>
    intro i st run e h
    rw [generateUnitLoop_succ] at h
    split at h
    · split at h
      · simp only [Outcome.ret.injEq, Option.some.injEq] at h
        obtain ⟨h1, h2⟩ := h
        subst h1
        exact ⟨rfl, rfl, h2.symm⟩
      · have hrest := ih _ _ _ _ h
        exact hrest
    · simp at h

/-- The step loop succeeds when every drawn category has two bounds in the unit's
table and every step's timestamp passes the check of `createRecord`. -/
theorem generateUnitLoop_total (draws : Nat → Draw) :
    ∀ (n : Nat) (i : Int) (st : UnitRun),
      (∀ k, k < n → 2 ≤ (categoryLookup st.unit (draws (st.pos + k)).category).length) →
      (∀ k : Nat, k < n →
        ¬ add64 st.request.Start (mul64 (i + (k : Int)) st.unit.Interval) < st.request.Start) →
      ∃ run, generateUnitLoop draws n i st = .ret run none := by
  intro n
  induction n with
  | zero => intro i st _ _; exact ⟨st, rfl⟩
  | succ n ih =>
    intro i st hlook htime
    rw [generateUnitLoop_succ]
    have h0 := hlook 0 (Nat.succ_pos n)
    have t0 := htime 0 (Nat.succ_pos n)
    simp only [Nat.add_zero, Nat.cast_zero, add_zero] at h0 t0
    split
    · rw [if_neg t0]
      apply ih
      · intro k hk
        have := hlook (k + 1) (Nat.succ_lt_succ hk)
        simpa only [categoryLookup, Nat.add_assoc, Nat.add_comm 1 k] using this
      · intro k hk
        have := htime (k + 1) (Nat.succ_lt_succ hk)
        simp only [Nat.cast_succ] at this
        simpa only [add_assoc, add_comm (1 : Int) (k : Int)] using this
    · next hne =>
      exfalso
      cases hc : categoryLookup st.unit (draws st.pos).category with
      | nil => rw [hc] at h0; simp at h0
      | cons a t =>
        cases t with
        | nil => rw [hc] at h0; simp at h0
        | cons b t2 => exact hne a b t2 hc

/-! ## `generateUnit` and `Generate` -/

/-- A successful `generateUnit`: the receiver is untouched, `steps r u` draws are
consumed, only `Reading` changes in the unit, and the `k`-th returned record
carries the unit's symbol and the offset of step `k`. -/
theorem generateUnit_ok (maxCap : Int) (draws : Nat → Draw) (r : Request) (u : Unit) (pos : Nat)
    (run : UnitRun) (h : generateUnit maxCap draws r u pos = .ret run none) :
    run.request = r ∧ run.pos = pos + steps r u ∧
      run.unit = { u with Reading := run.unit.Reading } ∧
      run.records.map (fun rec => (rec.Unit, rec.Time)) =
        (List.range (steps r u)).map fun (k : Nat) =>
          (u.Symbol, float64 (wrap64 ((k : Int) * u.Interval))) := by
  unfold generateUnit at h
  split at h
  · simp at h
  · simp only at h
    split at h
    · simp at h
    · obtain ⟨hreq, hpos, hunit, new, hrec, hmap⟩ := generateUnitLoop_ok draws _ _ _ _ h
      simp only [List.nil_append, zero_add] at hreq hpos hunit hrec hmap
      refine ⟨hreq, hpos, hunit, ?_⟩
      rw [hrec, hmap]
      rfl

theorem generateUnit_error (maxCap : Int) (draws : Nat → Draw) (r : Request) (u : Unit) (pos : Nat)
    (run : UnitRun) (e : String) (h : generateUnit maxCap draws r u pos = .ret run (some e)) :
    run.records = [] ∧ run.request = r := by
  unfold generateUnit at h
  split at h
  · simp at h
  · simp only at h
    split at h
    · simp at h
    · obtain ⟨h1, h2, _⟩ := generateUnitLoop_error draws _ _ _ _ _ h
      exact ⟨h1, h2⟩

/-- A successful unit loop of `Generate`: the receiver changes in `Records` only,
and the returned sequence is the records collected before, followed by one block
per unit, in the order of the units. -/
theorem generateLoop_ok (maxCap : Int) (draws : Nat → Draw) (r0 : Request) :
    ∀ (units : List Unit) (prior : List SenMLRecord) (pos : Nat) (out : Request)
      (recs : List SenMLRecord),
      generateLoop maxCap draws { r0 with Records := prior } pos units = .ret (out, recs) none →
      out = { r0 with Records := recs } ∧
      ∃ blocks, recs = prior ++ blocks.flatten ∧ List.Forall₂ (UnitBlock maxCap draws r0) units blocks := by
  intro units
  induction units with
  | nil =>
    intro prior pos out recs h
    simp only [generateLoop, Outcome.ret.injEq, Prod.mk.injEq, and_true] at h
    obtain ⟨h1, h2⟩ := h
    subst h1 h2
    exact ⟨rfl, [], by simp, List.Forall₂.nil⟩
  | cons u rest ih =>
    intro prior pos out recs h
    rw [generateLoop] at h
    cases hgu : generateUnit maxCap draws { r0 with Records := prior } u pos with
    | panic msg => rw [hgu] at h; simp at h
    | ret run err =>
      rw [hgu] at h
      cases err with
      | some e => simp at h
      | none =>
        simp only at h
        have hreq := (generateUnit_ok maxCap draws _ _ _ _ hgu).1
        rw [hreq] at h
        obtain ⟨hout, blocks, hrecs, hall⟩ := ih _ _ _ _ h
        refine ⟨hout, run.records :: blocks, ?_, ?_⟩
        · rw [hrecs]; simp
        · exact List.Forall₂.cons ⟨prior, pos, run, hgu, rfl⟩ hall

/-- A unit loop of `Generate` that returns an error returns no records. -/
theorem generateLoop_error (maxCap : Int) (draws : Nat → Draw) :
    ∀ (units : List Unit) (r : Request) (pos : Nat) (out : Request)
      (recs : List SenMLRecord) (e : String),
      generateLoop maxCap draws r pos units = .ret (out, recs) (some e) →
      recs = [] ∧ e = "failed to generate unit record set" := by
  intro units
  induction units with
  | nil => intro r pos out recs e h; simp [generateLoop] at h
  | cons u rest ih =>
    intro r pos out recs e h
    rw [generateLoop] at h
    cases hgu : generateUnit maxCap draws r u pos with
    | panic msg => rw [hgu] at h; simp at h
    | ret run err =>
      rw [hgu] at h
      cases err with
      | some e2 =>
        simp only [Outcome.ret.injEq, Prod.mk.injEq, Option.some.injEq] at h
        exact ⟨h.1.2.symm, h.2.symm⟩
      | none => exact ih _ _ _ _ _ h

/-! ## Offsets and counts of the generated records -/

theorem newCountLoop_frame (units : List Unit) :
    ∀ req r : Request, newCountLoop req units = some r →
      r = { req with RecordCount := r.RecordCount } := by
  induction units with
  | nil =>
    intro req r h
    simp only [newCountLoop, Option.some.injEq] at h
    subst h; rfl
  | cons u rest ih =>
    intro req r h
    unfold newCountLoop at h
    split at h
    · simp at h
    · have := ih _ _ h
      rw [this]

/-- A request returned by `New` either has no units or has a `Duration` in
`[0, 2^63)`. -/
theorem New_ret_window (req r : Request) (e0 : Option String) (h : New req = .ret r e0) :
    r.Units = [] ∨ (0 ≤ r.Duration ∧ r.Duration < 2 ^ 63) := by
  unfold New at h
  split at h
  · simp only [Outcome.ret.injEq] at h
    left; rw [← h.1]
  · next hwin =>
    split at h
    · next hlen =>
      simp only [Outcome.ret.injEq] at h
      left; rw [← h.1]
      cases hu : req.Units with
      | nil => rfl
      | cons _ _ => rw [hu] at hlen; simp at hlen
    · simp only at h
      split at h
      · simp at h
      · next r2 hloop =>
        simp only [Outcome.ret.injEq] at h
        right
        rw [← h.1, newCountLoop_frame _ _ _ hloop]
        simp only
        exact ⟨not_lt.1 hwin, (wrap64_isInt64 _).2⟩

/-- The offsets and symbols of a sequence of unit blocks, listed unit by unit. -/
theorem unitBlocks_keys (maxCap : Int) (draws : Nat → Draw) (r : Request) (units : List Unit)
    (blocks : List (List SenMLRecord)) (h : List.Forall₂ (UnitBlock maxCap draws r) units blocks) :
    blocks.flatten.map (fun rec => (rec.Unit, rec.Time)) =
      units.flatMap fun u =>
        (List.range (steps r u)).map fun (k : Nat) =>
          (u.Symbol, float64 (wrap64 ((k : Int) * u.Interval))) := by
  induction h with
  | nil => rfl
  | cons hblock _ ih =>
    obtain ⟨prior, pos, run, hgu, hrec⟩ := hblock
    have hk := (generateUnit_ok maxCap draws _ _ _ _ hgu).2.2.2
    rw [List.flatten_cons, List.map_append, ih, List.flatMap_cons, ← hrec, hk]
    rfl

theorem steps_of_pos {r : Request} {u : Unit} (hd0 : 0 ≤ r.Duration)
    (hd : r.Duration < 2 ^ 63) (hu : 0 < u.Interval) :
    steps r u = (r.Duration / u.Interval).toNat := by
  unfold steps
  rw [div64_of_pos hd0 hd hu]

theorem step_offset_bounds {d i : Int} {k : Nat} (hi : 0 < i)
    (hk : k < (d / i).toNat) : 0 ≤ (k : Int) * i ∧ (k : Int) * i ≤ d ∧ (k : Int) * i < 2 ^ 63 ∨ 2 ^ 63 ≤ d := by
  by_cases hd : 2 ^ 63 ≤ d
  · exact Or.inr hd
  · left
    have hq : (k : Int) + 1 ≤ d / i := by omega
    have h1 : ((k : Int) + 1) * i ≤ d / i * i := mul_le_mul_of_nonneg_right hq (le_of_lt hi)
    have h2 : d / i * i ≤ d := Int.ediv_mul_le d (ne_of_gt hi)
    have h3 : 0 ≤ (k : Int) * i := mul_nonneg (Int.ofNat_nonneg k) (le_of_lt hi)
    have h4 : ((k : Int) + 1) * i = (k : Int) * i + i := by ring
    refine ⟨h3, ?_, ?_⟩ <;> omega

theorem keys_eq_storedOffsets (r : Request) (hd0 : 0 ≤ r.Duration) (hd : r.Duration < 2 ^ 63) :
    ∀ units : List Unit, (∀ u ∈ units, 0 < u.Interval) →
      (units.flatMap fun u =>
        (List.range (steps r u)).map fun (k : Nat) =>
          (u.Symbol, float64 (wrap64 ((k : Int) * u.Interval)))) =
        storedOffsets r.Duration units := by
  intro units
  induction units with
  | nil => intro _; rfl
  | cons u rest ih =>
    intro hpos
    have hu : 0 < u.Interval := hpos u (List.mem_cons_self _ _)
    unfold storedOffsets at ih ⊢
    rw [List.flatMap_cons, List.flatMap_cons, ih (fun v hv => hpos v (List.mem_cons_of_mem _ hv)),
      steps_of_pos hd0 hd hu]
    congr 1
    apply List.map_congr_left
    intro k hk
    have hk2 : k < (r.Duration / u.Interval).toNat := List.mem_range.1 hk
    rcases step_offset_bounds hu hk2 with ⟨h0, _, h2⟩ | h
    · rw [wrap64_of_isInt64]
      unfold isInt64
      omega
    · omega

/-- On a window of at most `2^53` seconds, every offset is stored exactly. -/
theorem storedOffsets_eq_specOffsets {d : Int} (hd : d ≤ 2 ^ 53) (units : List Unit)
    (hpos : ∀ u ∈ units, 0 < u.Interval) : storedOffsets d units = specOffsets d units := by
  unfold storedOffsets specOffsets
  apply List.flatMap_congr
  intro u hu
  apply List.map_congr_left
  intro k hk
  rcases step_offset_bounds (hpos u hu) (List.mem_range.1 hk) with ⟨h0, h1, _⟩ | h
  · rw [float64_exact (by omega)]
  · omega

theorem specOffsets_bounds {d : Int} (hd : d < 2 ^ 63) (units : List Unit)
    (hpos : ∀ u ∈ units, 0 < u.Interval) (p : String × ℚ) (hp : p ∈ specOffsets d units) :
    0 ≤ p.2 ∧ p.2 ≤ (d : ℚ) := by
  unfold specOffsets at hp
  obtain ⟨u, hu, hp⟩ := List.mem_flatMap.1 hp
  obtain ⟨k, hk, rfl⟩ := List.mem_map.1 hp
  rcases step_offset_bounds (hpos u hu) (List.mem_range.1 hk) with ⟨h0, h1, _⟩ | h
  · simp only
    exact ⟨by exact_mod_cast h0, by exact_mod_cast h1⟩
  · omega

/-- On a window of length in `[0, 2^63)` with positive intervals, a successful
`Generate` returns the records with the symbols and offsets of `storedOffsets`. -/
theorem Generate_offsets_aux (maxCap : Int) (draws : Nat → Draw)
    (r out : Request) (recs : List SenMLRecord)
    (hd0 : 0 ≤ r.Duration) (hd : r.Duration < 2 ^ 63) (hpos : ∀ u ∈ r.Units, 0 < u.Interval)
    (hgen : Generate maxCap draws r = .ret (out, recs) none) :
    recs.map (fun rec => (rec.Unit, rec.Time)) = storedOffsets r.Duration r.Units := by
  unfold Generate at hgen
  split at hgen
  · simp at hgen
  · obtain ⟨_, blocks, hrecs, hall⟩ := generateLoop_ok maxCap draws r _ _ _ _ _ hgen
    have hkeys := unitBlocks_keys maxCap draws r _ _ hall
    rw [List.nil_append] at hrecs
    rw [← hrecs, keys_eq_storedOffsets r hd0 hd r.Units hpos] at hkeys
    exact hkeys

theorem meterUnit_complete (i : Int) : CompleteTables { meterUnit with Interval := i } := by
  intro c h0 h1
  have h3 : c < 3 := by simpa [meterUnit] using h1
  interval_cases c <;> simp [categoryLookup, meterUnit, List.lookup]

theorem midDraws_sampler (r : Request) (i : Int) (pos : Nat) :
    SamplerDraws midDraws r pos [{ meterUnit with Interval := i }] := by
  refine ⟨?_, trivial⟩
  intro k _
  simp only [SamplerDraw, midDraws, meterUnit]
  norm_num

/-- C5 (counterexample): a request returned by `New` with a positive interval of
`2^53 + 1` seconds and a complete table, on which `Generate` succeeds with three
records whose times are `0, 2^53, 2^54`: the second and third are not
`1 * Interval` and `2 * Interval`, and consecutive times differ by `2^53`, not by
`Interval`. -/
theorem Generate_offsets_counterexample :
    New bigStepInput = .ret bigStepRequest none ∧
      (∀ u ∈ bigStepRequest.Units, 0 < u.Interval ∧ CompleteTables u) ∧
      Generate exampleCap midDraws bigStepRequest =
        .ret ({ bigStepRequest with Records := bigStepRecords }, bigStepRecords) none ∧
      bigStepRecords.map (fun rec => rec.Time) =
        [0, 9007199254740992, 18014398509481984] ∧
      (specOffsets bigStepRequest.Duration bigStepRequest.Units).map Prod.snd =
        [0, 9007199254740993, 18014398509481986] := by
  refine ⟨by decide!, ?_, by decide!, by decide!, by decide!⟩
  intro u hu
  simp only [bigStepRequest, bigStepInput, List.mem_singleton] at hu
  subst hu
  exact ⟨by decide, meterUnit_complete _⟩

/-- C5 (amended): for a request returned by `New` whose window is at most `2^53`
seconds long and whose units have positive intervals, and for every sequence of
draws, every record that `Generate` returns has `0 <= Time <= Duration`, and when
`Generate` succeeds the returned records are, unit by unit, stamped with the
unit's symbol and the offsets `k * Interval` for `k = 0, 1, ...`, so that
consecutive offsets of one unit differ by `Interval`. -/
theorem Generate_offsets (req r : Request) (e0 : Option String) (maxCap : Int) (draws : Nat → Draw)
    (out : Request) (recs : List SenMLRecord) (err : Option String)
    (hnew : New req = .ret r e0) (hsmall : r.Duration ≤ 2 ^ 53)
    (hpos : ∀ u ∈ r.Units, 0 < u.Interval)
    (hgen : Generate maxCap draws r = .ret (out, recs) err) :
    (∀ rec ∈ recs, 0 ≤ rec.Time ∧ rec.Time ≤ (r.Duration : ℚ)) ∧
      (err = none →
        recs.map (fun rec => (rec.Unit, rec.Time)) = specOffsets r.Duration r.Units) := by
  unfold Generate at hgen
  split at hgen
  · simp at hgen
  · cases err with
    | some e =>
      have hnil := (generateLoop_error maxCap draws _ _ _ _ _ _ hgen).1
      subst hnil
      exact ⟨by simp, by simp⟩
    | none =>
      obtain ⟨_, blocks, hrecs, hall⟩ := generateLoop_ok maxCap draws r _ _ _ _ _ hgen
      have hkeys := unitBlocks_keys maxCap draws r _ _ hall
      rw [List.nil_append] at hrecs
      rw [← hrecs] at hkeys
      rcases New_ret_window req r e0 hnew with hnil | ⟨hd0, hd⟩
      · rw [hnil] at hkeys ⊢
        have hrecs_nil : recs = [] := by
          simpa using hkeys
        subst hrecs_nil
        exact ⟨by simp, fun _ => rfl⟩
      · rw [keys_eq_storedOffsets r hd0 hd r.Units hpos,
          storedOffsets_eq_specOffsets hsmall r.Units hpos] at hkeys
        refine ⟨?_, fun _ => hkeys⟩
        intro rec hrec
        have hmem : (rec.Unit, rec.Time) ∈ specOffsets r.Duration r.Units := by
          rw [← hkeys]
          exact List.mem_map.2 ⟨rec, hrec, rfl⟩
        exact specOffsets_bounds hd r.Units hpos _ hmem

/-! ## Success of `Generate` -/

/-- What a successful `New` returns: both checks passed, and the result is the
argument with `Duration` and `RecordCount` replaced. -/
theorem New_ok_frame (req r : Request) (h : New req = .ret r none) :
    ¬ sub64 req.End req.Start < 0 ∧ req.Units ≠ [] ∧
      r = { req with Duration := sub64 req.End req.Start, RecordCount := r.RecordCount } := by
  unfold New at h
  split at h
  · simp at h
  · next hwin =>
    split at h
    · simp at h
    · next hlen =>
      simp only at h
      split at h
      · simp at h
      · next r2 hloop =>
        simp only [Outcome.ret.injEq, and_true] at h
        subst h
        refine ⟨hwin, ?_, ?_⟩
        · intro hnil; rw [hnil] at hlen; simp at hlen
        · rw [newCountLoop_frame _ _ _ hloop]

/-- The call `generateUnit` succeeds on a window that ends within `int64`, for a
unit with a positive interval whose step count `make` can allocate, when each
draw it consumes hits a complete entry. -/
theorem generateUnit_total (maxCap : Int) (draws : Nat → Draw) (r : Request) (u : Unit) (pos : Nat)
    (hd0 : 0 ≤ r.Duration) (hd : r.Duration < 2 ^ 63)
    (hend : r.Start + r.Duration < 2 ^ 63) (hu : 0 < u.Interval)
    (hcap : r.Duration / u.Interval ≤ maxCap)
    (hlook : ∀ k, k < steps r u → 2 ≤ (categoryLookup u (draws (pos + k)).category).length) :
    ∃ run, generateUnit maxCap draws r u pos = .ret run none := by
  have hsteps := steps_of_pos hd0 hd hu
  unfold generateUnit
  rw [if_neg (ne_of_gt hu)]
  simp only
  have hq : 0 ≤ r.Duration / u.Interval := Int.ediv_nonneg hd0 (le_of_lt hu)
  rw [div64_of_pos hd0 hd hu, if_neg (not_makeFails hq hcap)]
  apply generateUnitLoop_total
  · intro k hk
    exact hlook k (by rw [hsteps]; exact hk)
  · intro k hk
    simp only [zero_add]
    rcases step_offset_bounds hu hk with ⟨h0, h1, h2⟩ | h
    · unfold add64 mul64 wrap64
      generalize (k : Int) * u.Interval = x at h0 h1 h2
      omega
    · omega

/-- The unit loop of `Generate` succeeds on a window that ends within `int64`, for
units with positive intervals, step counts `make` can allocate and complete
tables, on draws the samplers can produce. -/
theorem generateLoop_total (maxCap : Int) (draws : Nat → Draw) (r : Request)
    (hd0 : 0 ≤ r.Duration) (hd : r.Duration < 2 ^ 63)
    (hend : r.Start + r.Duration < 2 ^ 63) :
    ∀ (units : List Unit) (prior : List SenMLRecord) (pos : Nat),
      (∀ u ∈ units, 0 < u.Interval) → (∀ u ∈ units, r.Duration / u.Interval ≤ maxCap) →
      (∀ u ∈ units, CompleteTables u) → SamplerDraws draws r pos units →
      ∃ out recs, generateLoop maxCap draws { r with Records := prior } pos units = .ret (out, recs) none := by
  intro units
  induction units with
  | nil => intro prior pos _ _ _ _; exact ⟨_, _, rfl⟩
  | cons u rest ih =>
    intro prior pos hpos hcaps htab hdraws
    obtain ⟨hhere, hlater⟩ := hdraws
    have hu := hpos u (List.mem_cons_self _ _)
    have hlook : ∀ k, k < steps { r with Records := prior } u →
        2 ≤ (categoryLookup u (draws (pos + k)).category).length := by
      intro k hk
      obtain ⟨hc0, hc1, _⟩ := hhere k hk
      exact htab u (List.mem_cons_self _ _) _ hc0 hc1
    obtain ⟨run, hrun⟩ := generateUnit_total maxCap draws { r with Records := prior } u pos
      hd0 hd hend hu (hcaps u (List.mem_cons_self _ _)) hlook
    obtain ⟨hreq, hp, _⟩ := generateUnit_ok maxCap draws _ _ _ _ hrun
    rw [generateLoop, hrun]
    simp only
    rw [hreq, hp]
    exact ih _ _ (fun v hv => hpos v (List.mem_cons_of_mem _ hv))
      (fun v hv => hcaps v (List.mem_cons_of_mem _ hv))
      (fun v hv => htab v (List.mem_cons_of_mem _ hv)) hlater

theorem storedOffsets_length {d : Int} (hd : 0 ≤ d) (units : List Unit)
    (hpos : ∀ u ∈ units, 0 < u.Interval) :
    ((storedOffsets d units).length : Int) = specRecordCount d units := by
  induction units with
  | nil => rfl
  | cons u rest ih =>
    have hu := hpos u (List.mem_cons_self _ _)
    have hq : 0 ≤ d / u.Interval := Int.ediv_nonneg hd (le_of_lt hu)
    unfold storedOffsets specRecordCount at ih ⊢
    rw [List.flatMap_cons, List.length_append, List.map_cons, List.sum_cons, Nat.cast_add,
      ih (fun v hv => hpos v (List.mem_cons_of_mem _ hv)), List.length_map, List.length_range,
      Int.toNat_of_nonneg hq]

/-- C6 (counterexample): three requests returned by `New`, with positive
intervals, complete tables and draws the sampler can produce, on which `Generate`
does not succeed: with a negative `RecordCount` it panics in `make`, on a window
that wraps around `MaxInt64` it returns the error and no records, and with a
`RecordCount` of `2^62 + 1` it panics in `make`. -/
theorem Generate_fails_after_New :
    (New negativeCountInput = .ret { negativeCountInput with Duration := 86400, RecordCount := -4 } none ∧
      Generate exampleCap midDraws { negativeCountInput with Duration := 86400, RecordCount := -4 } =
        .panic "runtime error: makeslice: cap out of range") ∧
    (New wrappedInput = .ret { wrappedInput with Duration := 3, RecordCount := 3 } none ∧
      Generate exampleCap midDraws { wrappedInput with Duration := 3, RecordCount := 3 } =
        .ret ({ wrappedInput with Duration := 3, RecordCount := 3 }, [])
          (some "failed to generate unit record set")) ∧
    (New hugeInput = .ret hugeRequest none ∧
      hugeRequest.RecordCount = 4611686018427387905 ∧
      Generate exampleCap midDraws hugeRequest =
        .panic "runtime error: makeslice: cap out of range") ∧
    (∀ u ∈ negativeCountInput.Units ++ wrappedInput.Units ++ hugeInput.Units,
      0 < u.Interval ∧ CompleteTables u) ∧
    SamplerDraws midDraws { negativeCountInput with Duration := 86400, RecordCount := -4 } 0
      negativeCountInput.Units ∧
    SamplerDraws midDraws { wrappedInput with Duration := 3, RecordCount := 3 } 0
      wrappedInput.Units ∧
    SamplerDraws midDraws hugeRequest 0 hugeRequest.Units := by
  refine ⟨by decide!, by decide!, by decide!, ?_, midDraws_sampler _ 900 0,
    midDraws_sampler _ 1 0, midDraws_sampler _ 1 0⟩
  intro u hu
  simp only [negativeCountInput, meterInput, wrappedInput, hugeInput, List.cons_append,
    List.nil_append, List.mem_cons, List.mem_singleton, List.not_mem_nil, or_false] at hu
  rcases hu with rfl | rfl | rfl
  · exact ⟨by decide, meterUnit_complete 900⟩
  · exact ⟨by decide, meterUnit_complete 1⟩
  · exact ⟨by decide, meterUnit_complete 1⟩

/-- C6 (amended): for a request of `int64` values with `End >= Start`, if `New`
returns it normalized with a `RecordCount` that is non-negative and within the
capacity `make` can allocate, its units have positive intervals, step counts
`floor(Duration / Interval)` within that capacity and complete category tables,
and the draws are ones the samplers can produce, then `Generate` succeeds and
returns exactly the sum over the units of `floor(Duration / Interval)` records,
stamped unit by unit with the offsets `0, Interval, 2 * Interval, ...` converted
to `float64`. -/
theorem Generate_succeeds_with_count (req r : Request) (maxCap : Int) (draws : Nat → Draw)
    (hgo : req.IsGo) (horder : req.Start ≤ req.End) (hnew : New req = .ret r none)
    (hcount : 0 ≤ r.RecordCount) (hcap : r.RecordCount ≤ maxCap)
    (hpos : ∀ u ∈ r.Units, 0 < u.Interval)
    (hcaps : ∀ u ∈ r.Units, r.Duration / u.Interval ≤ maxCap)
    (htables : ∀ u ∈ r.Units, CompleteTables u) (hdraws : SamplerDraws draws r 0 r.Units) :
    ∃ out recs, Generate maxCap draws r = .ret (out, recs) none ∧
      (recs.length : Int) = specRecordCount r.Duration r.Units ∧
      recs.map (fun rec => (rec.Unit, rec.Time)) = storedOffsets r.Duration r.Units := by
  obtain ⟨hs, he, _, _, _⟩ := hgo
  obtain ⟨hwin, _, hframe⟩ := New_ok_frame req r hnew
  have hfit : req.End - req.Start < 2 ^ 63 := (sub64_nonneg_iff he hs horder).1 hwin
  have hdur : r.Duration = req.End - req.Start := by
    rw [hframe]; exact sub64_of_fits horder hfit
  have hstart : r.Start = req.Start := by rw [hframe]
  have hd0 : 0 ≤ r.Duration := by omega
  have hd : r.Duration < 2 ^ 63 := by omega
  have hend : r.Start + r.Duration < 2 ^ 63 := by
    unfold isInt64 at he; omega
  obtain ⟨out, recs, hloop⟩ :=
    generateLoop_total maxCap draws r hd0 hd hend r.Units [] 0 hpos hcaps htables hdraws
  have hgen : Generate maxCap draws r = .ret (out, recs) none := by
    unfold Generate
    rw [if_neg (not_makeFails hcount hcap)]
    exact hloop
  have hkeys := (Generate_offsets_aux maxCap draws r out recs hd0 hd hpos hgen)
  refine ⟨out, recs, hgen, ?_, hkeys⟩
  rw [← storedOffsets_length hd0 r.Units hpos, ← hkeys, List.length_map]

/-- C5 (witness): the two-unit window `10 .. 14`: six records, offsets `0, 2` for
the first unit and `0, 1, 2, 3` for the second, all within `0 .. 4`. -/
theorem Generate_offsets_example :
    New walkInput = .ret walkRequest none ∧
      Generate exampleCap midDraws walkRequest = .ret ({ walkRequest with Records := walkRecords }, walkRecords) none ∧
      (∀ rec ∈ walkRecords, 0 ≤ rec.Time ∧ rec.Time ≤ ((4 : Int) : ℚ)) ∧
      walkRecords.map (fun rec => (rec.Unit, rec.Time)) =
        [("L", 0), ("L", 2), ("Cel", 0), ("Cel", 1), ("Cel", 2), ("Cel", 3)] := by
  have hnew : New walkInput = .ret walkRequest none := by decide!
  have hgen : Generate exampleCap midDraws walkRequest =
      .ret ({ walkRequest with Records := walkRecords }, walkRecords) none := by decide!
  have h := Generate_offsets walkInput walkRequest none exampleCap midDraws _ walkRecords none hnew
    (by decide) (by decide!) hgen
  refine ⟨hnew, hgen, h.1, ?_⟩
  rw [h.2 rfl]
  decide!

/-- C6 (witness): the package example, window `0 .. 86400` with one unit of
interval 900: `Generate` succeeds with exactly 96 records at the offsets
`0, 900, 1800, ..., 85500`. -/
theorem Generate_day_example :
    New meterInput = .ret meterRequest none ∧
      ∃ out recs, Generate exampleCap midDraws meterRequest = .ret (out, recs) none ∧
        (recs.length : Int) = 96 ∧
        recs.map (fun rec => rec.Time) = (List.range 96).map fun k => ((900 * k : Nat) : ℚ) := by
  have hnew : New meterInput = .ret meterRequest none := by decide!
  obtain ⟨out, recs, hgen, hlen, hkeys⟩ :=
    Generate_succeeds_with_count meterInput meterRequest exampleCap midDraws (by decide!)
      (by decide) hnew (by decide) (by decide)
      (by intro u hu; simp only [meterRequest, meterInput, List.mem_singleton] at hu; subst hu; decide)
      (by intro u hu; simp only [meterRequest, meterInput, List.mem_singleton] at hu; subst hu; decide)
      (by
        intro u hu
        simp only [meterRequest, meterInput, List.mem_singleton] at hu
        subst hu
        exact meterUnit_complete 900)
      (midDraws_sampler _ 900 0)
  refine ⟨hnew, out, recs, hgen, ?_, ?_⟩
  · rw [hlen]; decide
  · have hsnd := congrArg (List.map Prod.snd) hkeys
    rw [List.map_map] at hsnd
    have hspec : (storedOffsets meterRequest.Duration meterRequest.Units).map Prod.snd =
        (List.range 96).map fun k => ((900 * k : Nat) : ℚ) := by decide!
    rw [← hspec, ← hsnd]
    rfl

/-! ## Order of the generated records -/

theorem UnitBlock_stepOrdered (maxCap : Int) (draws : Nat → Draw) (r : Request) (u : Unit)
    (block : List SenMLRecord) (h : UnitBlock maxCap draws r u block) : StepOrdered u block := by
  obtain ⟨prior, pos, run, hgu, hrec⟩ := h
  have hk := (generateUnit_ok maxCap draws _ _ _ _ hgu).2.2.2
  rw [hrec] at hk
  have hlen : block.length = steps { r with Records := prior } u := by
    have := congrArg List.length hk
    simpa using this
  constructor
  · intro rec hrec
    have hmem : (rec.Unit, rec.Time) ∈ block.map (fun rec => (rec.Unit, rec.Time)) :=
      List.mem_map.2 ⟨rec, hrec, rfl⟩
    rw [hk] at hmem
    obtain ⟨k, _, hk2⟩ := List.mem_map.1 hmem
    exact (congrArg Prod.fst hk2).symm
  · have hsnd := congrArg (List.map Prod.snd) hk
    rw [List.map_map, List.map_map] at hsnd
    rw [hlen]
    exact hsnd

/-- C7: when `Generate` succeeds, the returned sequence is the concatenation, in
the order of `r.Units`, of one block per unit; each block is what `generateUnit`
returned for that unit, carries that unit's symbol and is in step order; and the
`Records` field of the request after the call is the returned sequence. -/
theorem Generate_concatenates (maxCap : Int) (draws : Nat → Draw) (r out : Request)
    (recs : List SenMLRecord) (hgen : Generate maxCap draws r = .ret (out, recs) none) :
    out.Records = recs ∧
      ∃ blocks : List (List SenMLRecord), recs = blocks.flatten ∧
        List.Forall₂ (fun u block => UnitBlock maxCap draws r u block ∧ StepOrdered u block)
          r.Units blocks := by
  unfold Generate at hgen
  split at hgen
  · simp at hgen
  · obtain ⟨hout, blocks, hrecs, hall⟩ := generateLoop_ok maxCap draws r _ _ _ _ _ hgen
    rw [List.nil_append] at hrecs
    refine ⟨by rw [hout], blocks, hrecs, ?_⟩
    exact hall.imp fun u block hb => ⟨hb, UnitBlock_stepOrdered maxCap draws r u block hb⟩

/-- C7 (witness): on the two-unit window the returned records are the two records
of the first unit followed by the four records of the second. -/
theorem Generate_concatenates_example :
    Generate exampleCap midDraws walkRequest =
        .ret ({ walkRequest with Records := walkRecords }, walkRecords) none ∧
      ∃ blocks : List (List SenMLRecord), walkRecords = blocks.flatten ∧
        List.Forall₂ (fun u block => UnitBlock exampleCap midDraws walkRequest u block ∧ StepOrdered u block)
          walkRequest.Units blocks := by
  have hgen : Generate exampleCap midDraws walkRequest =
      .ret ({ walkRequest with Records := walkRecords }, walkRecords) none := by decide!
  exact ⟨hgen, (Generate_concatenates exampleCap midDraws walkRequest _ walkRecords hgen).2⟩

/-! ## The running total after `Generate` -/

/-- A successful `Generate` leaves the units of the request as they were. -/
theorem Generate_units_unchanged (maxCap : Int) (draws : Nat → Draw) (r out : Request)
    (recs : List SenMLRecord) (hgen : Generate maxCap draws r = .ret (out, recs) none) :
    out.Units = r.Units := by
  unfold Generate at hgen
  split at hgen
  · simp at hgen
  · obtain ⟨hout, _⟩ := generateLoop_ok maxCap draws r _ _ _ _ _ hgen
    rw [hout]

/-- C8 (failing input): `Generate` on a request with one unit of `Reading = 0`
returns one record of value 1/2, yet the unit of the request still has
`Reading = 0` afterwards; a second `Generate` starts from 0 again and returns the
value 1/2, where a walk resumed from `Reading = 1/2` returns -1/2. -/
theorem Generate_reading_not_kept :
    Generate exampleCap halfDraws cappedRequest =
        .ret ({ cappedRequest with Records := [cappedRecord (1 / 2)] }, [cappedRecord (1 / 2)]) none ∧
      ({ cappedRequest with Records := [cappedRecord (1 / 2)] } : Request).Units.map (fun u => u.Reading)
        = [0] ∧
      Generate exampleCap halfDraws { cappedRequest with Records := [cappedRecord (1 / 2)] } =
        .ret ({ cappedRequest with Records := [cappedRecord (1 / 2)] }, [cappedRecord (1 / 2)]) none ∧
      generateUnit exampleCap halfDraws cappedRequest { cappedUnit with Reading := 1 / 2 } 0 =
        .ret { request := cappedRequest, unit := { cappedUnit with Reading := 0 }, pos := 1,
               records := [cappedRecord (-1 / 2)] } none := by
  decide!

/-! ## Containment under the ceiling -/

theorem maxSpan_nonneg (u : Unit) : 0 ≤ maxSpan u := by
  unfold maxSpan
  induction u.Categories with
  | nil => simp
  | cons entry rest ih =>
    simp only [List.foldr_cons]
    split
    · exact le_max_of_le_right ih
    · exact ih

/-- One step under a ceiling: with the ceiling check on and the floor check off or
at most at the ceiling, a reading at or below the ceiling stays there, and a
non-negative draw never takes a reading above `Ceiling + m` from below it. -/
theorem contain_under_ceiling (u : Unit) (d m : ℚ) (hm : 0 ≤ m)
    (hceil : u.UseCeiling = true) (hfloor : u.UseFloor = true → u.Floor ≤ u.Ceiling) :
    (u.Reading ≤ u.Ceiling → u.Reading + contain u d ≤ u.Ceiling) ∧
      (0 ≤ d → u.Reading ≤ u.Ceiling + m → u.Reading + contain u d ≤ u.Ceiling + m) := by
  unfold contain
  simp only [hceil, true_and]
  by_cases hf : u.UseFloor = true
  · have hfc := hfloor hf
    simp only [hf, true_and]
    constructor
    · intro h
      split_ifs <;> linarith
    · intro hd h
      split_ifs <;> linarith
  · have hf2 : u.UseFloor = false := by simpa using hf
    simp only [hf2, Bool.false_eq_true, false_and, if_false]
    constructor
    · intro h
      split_ifs <;> linarith
    · intro hd h
      split_ifs <;> linarith

/-- The ceiling invariant of the step loop, for a fixed ceiling `c` and margin `m`. -/
theorem generateUnitLoop_ceiling (draws : Nat → Draw) (c m : ℚ) (hm : 0 ≤ m) :
    ∀ (n : Nat) (i : Int) (st run : UnitRun) (e : Option String),
      generateUnitLoop draws n i st = .ret run e →
      st.unit.UseCeiling = true → st.unit.Ceiling = c →
      (st.unit.UseFloor = true → st.unit.Floor ≤ c) →
      (st.unit.Reading ≤ c ∨
        (st.unit.Reading ≤ c + m ∧ NonnegSpans st.unit ∧ ∀ p, 0 ≤ (draws p).fraction)) →
      run.unit.Reading ≤ c + m := by
  intro n
  induction n with
  | zero =>
    intro i st run e h _ _ _ hstart
    simp only [generateUnitLoop, Outcome.ret.injEq] at h
    rw [← h.1]
    rcases hstart with h1 | ⟨h1, _⟩ <;> linarith
  | succ n ih =>
    intro i st run e h hceil hc hfloor hstart
    rw [generateUnitLoop_succ] at h
    split at h
    · next lower upper rest hlook =>
      split at h
      · simp only [Outcome.ret.injEq] at h
        rw [← h.1]
        simp only
        rcases hstart with h1 | ⟨h1, _⟩ <;> linarith
      · have hstep := contain_under_ceiling st.unit
          ((draws st.pos).fraction * (upper - lower)) m hm hceil (by rw [hc]; exact hfloor)
        rw [hc] at hstep
        have hnext : st.unit.Reading + contain st.unit ((draws st.pos).fraction * (upper - lower)) ≤ c ∨
            (st.unit.Reading + contain st.unit ((draws st.pos).fraction * (upper - lower)) ≤ c + m ∧
              NonnegSpans st.unit ∧ ∀ p, 0 ≤ (draws p).fraction) := by
          rcases hstart with h1 | ⟨h1, hspans, hfrac⟩
          · exact Or.inl (hstep.1 h1)
          · refine Or.inr ⟨hstep.2 ?_ h1, hspans, hfrac⟩
            have hle := hspans _ _ _ _ hlook
            exact mul_nonneg (hfrac _) (by linarith)
        exact ih (i + 1) _ run e h hceil hc hfloor hnext
    · simp at h

/-- C9 (counterexample): three units with `UseCeiling` set, ceiling 0 and largest
step 1, whose `Reading` after the steps exceeds `Ceiling + 1`: one that starts at
100, one whose floor (100) lies above the ceiling, after three steps, and one with
an inverted category `[1, 0]` that starts at 9/10. -/
theorem reading_exceeds_ceiling :
    (hotUnit.UseCeiling = true ∧ hotUnit.Ceiling + maxSpan hotUnit = 1 ∧
      finalReading (generateUnit exampleCap halfDraws (stepsRequest 1) hotUnit 0) = some (199 / 2)) ∧
    (crossedUnit.UseCeiling = true ∧ crossedUnit.Ceiling + maxSpan crossedUnit = 1 ∧
      crossedUnit.Reading ≤ crossedUnit.Ceiling ∧
      finalReading (generateUnit exampleCap halfDraws (stepsRequest 3) crossedUnit 0) = some (3 / 2)) ∧
    (invertedUnit.UseCeiling = true ∧ invertedUnit.Ceiling + maxSpan invertedUnit = 1 ∧
      invertedUnit.Reading ≤ invertedUnit.Ceiling + maxSpan invertedUnit ∧
      finalReading (generateUnit exampleCap halfDraws (stepsRequest 1) invertedUnit 0) = some (14 / 10)) := by
  decide!

/-- C9 (amended): for a unit with `UseCeiling` set whose floor check is off or has
`Floor <= Ceiling`, if the `Reading` before the first step is at most `Ceiling` (or
at most `Ceiling + maxSpan` when every category has `lower <= upper` and the drawn
fractions are non-negative), then after any number `n` of steps of the loop of
`generateUnit` the `Reading` is at most `Ceiling + maxSpan`, where `maxSpan` is the
maximum over the categories of `|upper - lower|`. -/
theorem reading_within_ceiling (draws : Nat → Draw) (n : Nat) (i : Int) (st run : UnitRun)
    (e : Option String) (hceil : st.unit.UseCeiling = true)
    (hfloor : st.unit.UseFloor = true → st.unit.Floor ≤ st.unit.Ceiling)
    (hstart : st.unit.Reading ≤ st.unit.Ceiling ∨
      (st.unit.Reading ≤ st.unit.Ceiling + maxSpan st.unit ∧ NonnegSpans st.unit ∧
        ∀ p, 0 ≤ (draws p).fraction))
    (hrun : generateUnitLoop draws n i st = .ret run e) :
    run.unit.Reading ≤ st.unit.Ceiling + maxSpan st.unit :=
  generateUnitLoop_ceiling draws st.unit.Ceiling (maxSpan st.unit) (maxSpan_nonneg _) n i st run e
    hrun hceil rfl hfloor hstart

/-- C9 (witness): one step of `cappedUnit` (ceiling 3/4, span 1) from `Reading = 0`
ends at 1/2, within `Ceiling + maxSpan`. -/
theorem reading_within_ceiling_example :
    cappedUnit.UseCeiling = true ∧ cappedUnit.Reading ≤ cappedUnit.Ceiling ∧
      generateUnitLoop halfDraws 1 0
          { request := cappedRequest, unit := cappedUnit, pos := 0, records := [] } =
        .ret { request := cappedRequest, unit := { cappedUnit with Reading := 1 / 2 }, pos := 1,
               records := [cappedRecord (1 / 2)] } none ∧
      (1 / 2 : ℚ) ≤ cappedUnit.Ceiling + maxSpan cappedUnit := by
  have hrun : generateUnitLoop halfDraws 1 0
      { request := cappedRequest, unit := cappedUnit, pos := 0, records := [] } =
      .ret { request := cappedRequest, unit := { cappedUnit with Reading := 1 / 2 }, pos := 1,
             records := [cappedRecord (1 / 2)] } none := by decide!
  have h := reading_within_ceiling halfDraws 1 0 _ _ none (by decide!) (by decide!)
    (Or.inl (by decide!)) hrun
  exact ⟨by decide!, by decide!, hrun, h⟩

/-! ## `New` on a request without units, and what `New` leaves untouched -/

/-- C12 (failing input): on the request of the test `error-on-negative-duration`,
a 24-hour window with `End >= Start` and no units, `New` returns the error
"no units provided", and the request it returns still has `Duration = 0`, not
`End - Start = 86400`. -/
theorem New_noUnits_error :
    noUnitsRequest.Start ≤ noUnitsRequest.End ∧ noUnitsRequest.Units = [] ∧
      New noUnitsRequest = .ret noUnitsRequest (some "no units provided") ∧
      noUnitsRequest.Duration = 0 ∧ noUnitsRequest.End - noUnitsRequest.Start = 86400 := by
  decide

/-- Every request with `End >= Start`, a window length that fits `int64`, and no
units is returned as given, with the error "no units provided". -/
theorem New_noUnits (req : Request) (horder : req.Start ≤ req.End)
    (hfit : req.End - req.Start < 2 ^ 63) (hunits : req.Units = []) :
    New req = .ret req (some "no units provided") := by
  have hwin : ¬ sub64 req.End req.Start < 0 := by
    rw [sub64_of_fits horder hfit]; omega
  unfold New
  rw [if_neg hwin, hunits]
  simp

/-- C13: when `New` succeeds, the request it returns is the input with only
`Duration` and `RecordCount` replaced (`Name`, `Start`, `End`, `Version`, `Debug`,
`Records` and the `Units` list are as given); when `New` fails with the "end time
before start time" error it returns the zero `Request`, which is what happens
whenever `End < Start` and the difference fits `int64`. -/
theorem New_frame (req r : Request) :
    (New req = .ret r none →
        r = { req with Duration := r.Duration, RecordCount := r.RecordCount }) ∧
      (New req = .ret r (some "end time before start time") → r = {}) ∧
      (req.End < req.Start → -(2 ^ 63) ≤ req.End - req.Start →
        New req = .ret {} (some "end time before start time")) := by
  refine ⟨?_, ?_, ?_⟩
  · intro h
    have hframe := (New_ok_frame req r h).2.2
    rw [hframe]
  · intro h
    unfold New at h
    split at h
    · simp only [Outcome.ret.injEq, and_true] at h
      exact h.symm
    · split at h
      · simp at h
      · simp only at h
        split at h <;> simp at h
  · intro hlt hfit
    have hwin : sub64 req.End req.Start < 0 := by
      unfold sub64 wrap64
      omega
    unfold New
    rw [if_pos hwin]

/-- C13 (witness): the package example is returned with `Duration` and
`RecordCount` set and everything else as given, and the window `10 .. 0` is
answered with the zero `Request`. -/
theorem New_frame_example :
    New meterInput = .ret meterRequest none ∧
      meterRequest = { meterInput with Duration := 86400, RecordCount := 96 } ∧
      New { Name := "test", Start := 10, End := 0 } = .ret {} (some "end time before start time") := by
  have hnew : New meterInput = .ret meterRequest none := by decide!
  have h := New_frame meterInput meterRequest
  have h2 := New_frame { Name := "test", Start := 10, End := 0 } {}
  exact ⟨hnew, h.1 hnew, h2.2.2 (by decide) (by decide)⟩

/-! ## Failure of a unit inside `Generate` -/

/-- Running the unit loop of `Generate` over `pre ++ rest`, when the units of
`pre` succeed, is running it over `rest` from the state reached after `pre`. -/
theorem generateLoop_append (maxCap : Int) (draws : Nat → Draw) (r0 : Request) (rest : List Unit) :
    ∀ (pre : List Unit) (prior : List SenMLRecord) (pos : Nat) (mid : Request)
      (recs : List SenMLRecord),
      generateLoop maxCap draws { r0 with Records := prior } pos pre = .ret (mid, recs) none →
      generateLoop maxCap draws { r0 with Records := prior } pos (pre ++ rest) =
        generateLoop maxCap draws mid (pos + drawsConsumed r0 pre) rest := by
  intro pre
  induction pre with
  | nil =>
    intro prior pos mid recs h
    simp only [generateLoop, Outcome.ret.injEq, Prod.mk.injEq, and_true] at h
    rw [← h.1]
    simp [drawsConsumed]
  | cons u pre ih =>
    intro prior pos mid recs h
    rw [generateLoop] at h
    rw [List.cons_append, generateLoop]
    cases hgu : generateUnit maxCap draws { r0 with Records := prior } u pos with
    | panic msg => rw [hgu] at h; simp at h
    | ret run err =>
      rw [hgu] at h
      cases err with
      | some e => simp at h
      | none =>
        simp only at h ⊢
        obtain ⟨hreq, hpos, _⟩ := generateUnit_ok maxCap draws _ _ _ _ hgu
        rw [hreq, hpos] at h ⊢
        have hnext := ih _ _ _ _ h
        simp only at hnext
        rw [hnext]
        congr 1
        simp only [drawsConsumed, List.map_cons, List.sum_cons, steps]
        omega

/-- C11: when, in a run of `Generate` that has reached its unit loop (its `make`
has not panicked), the units before `u` are generated successfully and
`generateUnit` returns an error for `u`, `Generate` returns the error
"failed to generate unit record set" with an empty record sequence; and whenever
`Generate` returns an error, the sequence it returns is empty. -/
theorem Generate_unit_failure (maxCap : Int) (draws : Nat → Draw)
    (r : Request) (pre : List Unit) (u : Unit)
    (post : List Unit) (mid : Request) (recs : List SenMLRecord) (run : UnitRun) (e : String)
    (hmake : ¬ makeFails maxCap r.RecordCount) (hunits : r.Units = pre ++ u :: post)
    (hpre : generateLoop maxCap draws { r with Records := [] } 0 pre = .ret (mid, recs) none)
    (hfail : generateUnit maxCap draws mid u (drawsConsumed r pre) = .ret run (some e)) :
    Generate maxCap draws r = .ret (run.request, []) (some "failed to generate unit record set") ∧
      ∀ out recs2 e2, Generate maxCap draws r = .ret (out, recs2) (some e2) → recs2 = [] := by
  constructor
  · have hlist : generateLoop maxCap draws { r with Records := [] } 0 r.Units =
        generateLoop maxCap draws { r with Records := [] } 0 (pre ++ u :: post) :=
      congrArg _ hunits
    unfold Generate
    rw [if_neg hmake, hlist, generateLoop_append maxCap draws r _ pre [] 0 mid recs hpre,
      Nat.zero_add, generateLoop, hfail]
  · intro out recs2 e2 h
    unfold Generate at h
    rw [if_neg hmake] at h
    exact (generateLoop_error maxCap draws _ _ _ _ _ _ h).1

/-- C11 (witness): on a window that wraps past `MaxInt64` the first unit yields one
record, the second unit fails at its third step, and `Generate` returns the error
with no record at all. -/
theorem Generate_unit_failure_example :
    New wrappedTwoInput = .ret wrappedTwoRequest none ∧
      generateLoop exampleCap midDraws { wrappedTwoRequest with Records := [] } 0
          [{ meterUnit with Interval := 3 }] =
        .ret ({ wrappedTwoRequest with Records := [wrappedRecord] }, [wrappedRecord]) none ∧
      Generate exampleCap midDraws wrappedTwoRequest =
        .ret ({ wrappedTwoRequest with Records := [wrappedRecord] }, [])
          (some "failed to generate unit record set") := by
  have hnew : New wrappedTwoInput = .ret wrappedTwoRequest none := by decide!
  have hpre : generateLoop exampleCap midDraws { wrappedTwoRequest with Records := [] } 0
      [{ meterUnit with Interval := 3 }] =
      .ret ({ wrappedTwoRequest with Records := [wrappedRecord] }, [wrappedRecord]) none := by
    decide!
  have hfail : generateUnit exampleCap midDraws { wrappedTwoRequest with Records := [wrappedRecord] }
      { meterUnit with Interval := 1 }
      (drawsConsumed wrappedTwoRequest [{ meterUnit with Interval := 3 }]) =
      .ret { request := { wrappedTwoRequest with Records := [wrappedRecord] },
             unit := { meterUnit with Interval := 1, Reading := 189 / 10 }, pos := 4,
             records := [] } (some "failed to create record") := by decide!
  have h := Generate_unit_failure exampleCap midDraws wrappedTwoRequest [{ meterUnit with Interval := 3 }]
    { meterUnit with Interval := 1 } [] _ _ _ _ (by decide) (by decide!) hpre hfail
  exact ⟨hnew, hpre, h.1⟩

/-! ## One step of the loop of `generateUnit` -/

/-- The result of the two checks in terms of which of them fire. -/
theorem contain_cases (unit : Unit) (d : ℚ) :
    (ceilingCheck unit d ∧ floorCheck unit (-d) ∧ contain unit d = d) ∨
      (ceilingCheck unit d ∧ ¬ floorCheck unit (-d) ∧ contain unit d = -d) ∨
      (¬ ceilingCheck unit d ∧ floorCheck unit d ∧ contain unit d = -d) ∨
      (¬ ceilingCheck unit d ∧ ¬ floorCheck unit d ∧ contain unit d = d) := by
  unfold contain ceilingCheck floorCheck
  by_cases hc : unit.UseCeiling = true ∧ unit.Reading + d > unit.Ceiling
  · by_cases hf : unit.UseFloor = true ∧ unit.Reading - -d < unit.Floor
    · left
      refine ⟨hc, hf, ?_⟩
      simp only [if_pos hc, if_pos hf, neg_neg]
    · right; left
      refine ⟨hc, hf, ?_⟩
      simp only [if_pos hc, if_neg hf]
  · by_cases hf : unit.UseFloor = true ∧ unit.Reading - d < unit.Floor
    · right; right; left
      refine ⟨hc, hf, ?_⟩
      simp only [if_neg hc, if_pos hf]
    · right; right; right
      refine ⟨hc, hf, ?_⟩
      simp only [if_neg hc, if_neg hf]

/-- One successful step of the loop: the drawn category has its two bounds, the
timestamp passes `createRecord`, one record carrying the contained delta is
appended, and the same delta is added to `Reading`. -/
theorem generateUnitLoop_one (draws : Nat → Draw) (i : Int) (st run : UnitRun)
    (h : generateUnitLoop draws 1 i st = .ret run none) :
    ∃ lower upper rest,
      categoryLookup st.unit (draws st.pos).category = lower :: upper :: rest ∧
      ¬ add64 st.request.Start (mul64 i st.unit.Interval) < st.request.Start ∧
      run.request = st.request ∧ run.pos = st.pos + 1 ∧
      run.unit =
        { st.unit with
          Reading := st.unit.Reading +
            contain st.unit ((draws st.pos).fraction * (upper - lower)) } ∧
      run.records = st.records ++
        [(createRecord st.request (contain st.unit ((draws st.pos).fraction * (upper - lower)))
          st.unit.Symbol (add64 st.request.Start (mul64 i st.unit.Interval))).2.1] ∧
      (createRecord st.request (contain st.unit ((draws st.pos).fraction * (upper - lower)))
          st.unit.Symbol (add64 st.request.Start (mul64 i st.unit.Interval))).2.1.Value =
        some (contain st.unit ((draws st.pos).fraction * (upper - lower))) := by
  rw [generateUnitLoop_succ] at h
  split at h
  · next lower upper rest hlook =>
    split at h
    · simp at h
    · next htime =>
      simp only [generateUnitLoop, Outcome.ret.injEq, and_true] at h
      subst h
      refine ⟨lower, upper, rest, hlook, htime, rfl, rfl, rfl, ?_, ?_⟩
      · simp only [createRecord, if_neg htime]
      · simp only [createRecord, if_neg htime]
  · simp at h

/-- C19: in a successful step where the ceiling check fires on the drawn delta and
the floor check fires on the negated delta, the value recorded and the value added
to `Reading` are both the drawn delta `u * (upper - lower)` itself. -/
theorem double_reflection_keeps_delta (draws : Nat → Draw) (i : Int) (st run : UnitRun)
    (lower upper : ℚ) (rest : List ℚ)
    (hlook : categoryLookup st.unit (draws st.pos).category = lower :: upper :: rest)
    (hceil : ceilingCheck st.unit ((draws st.pos).fraction * (upper - lower)))
    (hfloor : floorCheck st.unit (-((draws st.pos).fraction * (upper - lower))))
    (h : generateUnitLoop draws 1 i st = .ret run none) :
    contain st.unit ((draws st.pos).fraction * (upper - lower)) =
        (draws st.pos).fraction * (upper - lower) ∧
      ∃ rec, run.records = st.records ++ [rec] ∧
        rec.Value = some ((draws st.pos).fraction * (upper - lower)) ∧
        run.unit.Reading = st.unit.Reading + (draws st.pos).fraction * (upper - lower) := by
  have hcontain : contain st.unit ((draws st.pos).fraction * (upper - lower)) =
      (draws st.pos).fraction * (upper - lower) := by
    rcases contain_cases st.unit ((draws st.pos).fraction * (upper - lower)) with
      ⟨_, _, hv⟩ | ⟨_, hnf, _⟩ | ⟨hnc, _, _⟩ | ⟨hnc, _, _⟩
    · exact hv
    · exact absurd hfloor hnf
    · exact absurd hceil hnc
    · exact absurd hceil hnc
  obtain ⟨lower2, upper2, rest2, hlook2, _, _, _, hunit, hrec, hval⟩ :=
    generateUnitLoop_one draws i st run h
  rw [hlook] at hlook2
  simp only [List.cons.injEq] at hlook2
  obtain ⟨hl, hu, _⟩ := hlook2
  subst hl hu
  rw [hcontain] at hunit hval hrec
  refine ⟨hcontain, _, hrec, hval, ?_⟩
  rw [hunit]

/-- C19 (witness): `crossedUnit` (ceiling 0, floor 100) at `Reading = 0` draws 1/2;
both checks fire and 1/2 is recorded and added. -/
theorem double_reflection_example :
    ceilingCheck crossedUnit (1 / 2) ∧ floorCheck crossedUnit (-(1 / 2)) ∧
      generateUnitLoop halfDraws 1 0 crossedStart = .ret crossedAfterOne none ∧
      ∃ rec, crossedAfterOne.records = crossedStart.records ++ [rec] ∧
        rec.Value = some ((halfDraws crossedStart.pos).fraction * (1 - 0)) ∧
        crossedAfterOne.unit.Reading =
          crossedStart.unit.Reading + (halfDraws crossedStart.pos).fraction * (1 - 0) := by
  have hrun : generateUnitLoop halfDraws 1 0 crossedStart = .ret crossedAfterOne none := by
    decide!
  have h := double_reflection_keeps_delta halfDraws 0 crossedStart crossedAfterOne 0 1 []
    (by decide!) (by decide!) (by decide!) hrun
  exact ⟨by decide!, by decide!, hrun, h.2⟩

/-- C20: when `Floor <= Ceiling`, the ceiling check (on the drawn delta) and the
floor check (on the delta the ceiling check has negated) never both fire; whenever
both fire, `Floor > Ceiling`. -/
theorem checks_exclusive (unit : Unit) (d : ℚ) :
    (unit.Floor ≤ unit.Ceiling → ¬ (ceilingCheck unit d ∧ floorCheck unit (-d))) ∧
      (ceilingCheck unit d → floorCheck unit (-d) → unit.Ceiling < unit.Floor) := by
  unfold ceilingCheck floorCheck
  constructor
  · rintro hle ⟨⟨_, hc⟩, ⟨_, hf⟩⟩
    rw [sub_neg_eq_add] at hf
    linarith
  · rintro ⟨_, hc⟩ ⟨_, hf⟩
    rw [sub_neg_eq_add] at hf
    linarith

/-- C20 (witness): `thermoUnit` (floor -1, ceiling 1, both checks on) at
`Reading = 0` with the delta 3/2: the ceiling check fires and the floor check does
not. -/
theorem checks_exclusive_example :
    thermoUnit.UseFloor = true ∧ thermoUnit.UseCeiling = true ∧
      thermoUnit.Floor ≤ thermoUnit.Ceiling ∧ ceilingCheck thermoUnit (3 / 2) ∧
      ¬ (ceilingCheck thermoUnit (3 / 2) ∧ floorCheck thermoUnit (-(3 / 2))) :=
  ⟨by decide, by decide, by decide!, by decide!,
    (checks_exclusive thermoUnit (3 / 2)).1 (by decide!)⟩

/-- When the floor check fires, the delta it was evaluated on is negated: a
positive delta becomes a negative one. -/
theorem contain_floor_fires (unit : Unit) (d : ℚ) (hc : ¬ ceilingCheck unit d)
    (hf : floorCheck unit d) : contain unit d = -d := by
  rcases contain_cases unit d with ⟨h, _, _⟩ | ⟨h, _, _⟩ | ⟨_, _, hv⟩ | ⟨_, hnf, _⟩
  · exact absurd h hc
  · exact absurd h hc
  · exact hv
  · exact absurd hf hnf

/-- C15 (failing input): `flooredUnit` (floor -1, `UseFloor` set) at `Reading = 0`
draws the delta 3/2; the floor check fires (`0 - 3/2 < -1`), the recorded value is
`-3/2`, and the running total falls from 0 to `-3/2`, below the floor. -/
theorem floor_check_pushes_down :
    flooredUnit.UseFloor = true ∧ floorCheck flooredUnit (1 / 2 * (3 - 0)) ∧
      generateUnit exampleCap halfDraws (stepsRequest 1) flooredUnit 0 =
        .ret { request := stepsRequest 1, unit := { flooredUnit with Reading := -3 / 2 },
               pos := 1, records := [cappedRecord (-3 / 2)] } none ∧
      (-3 / 2 : ℚ) < flooredUnit.Reading ∧ (-3 / 2 : ℚ) < flooredUnit.Floor := by
  decide!

/-! ## Timestamps of the step loop -/

/-- Running the step loop for `n + m` steps, when the first `n` succeed, is running
it for `m` more steps from the state they reach. -/
theorem generateUnitLoop_add (draws : Nat → Draw) (m : Nat) :
    ∀ (n : Nat) (i : Int) (st mid : UnitRun),
      generateUnitLoop draws n i st = .ret mid none →
      generateUnitLoop draws (n + m) i st = generateUnitLoop draws m (i + (n : Int)) mid := by
  intro n
  induction n with
  | zero =>
    intro i st mid h
    simp only [generateUnitLoop, Outcome.ret.injEq, and_true] at h
    subst h
    simp
  | succ n ih =>
    intro i st mid h
    have hnm : n + 1 + m = (n + m) + 1 := by omega
    rw [generateUnitLoop_succ] at h
    rw [hnm, generateUnitLoop_succ]
    split at h
    · next lower upper rest hlook =>
      split at h
      · simp at h
      · next htime =>
        rw [if_neg htime]
        have hnext := ih _ _ _ h
        rw [hnext]
        congr 1
        push_cast
        ring
    · simp at h

/-- The step loop returns no error when every timestamp it computes passes the
check of `createRecord`. -/
theorem generateUnitLoop_no_error (draws : Nat → Draw) :
    ∀ (n : Nat) (i : Int) (st run : UnitRun) (e : String),
      (∀ k : Nat, k < n →
        ¬ add64 st.request.Start (mul64 (i + (k : Int)) st.unit.Interval) < st.request.Start) →
      generateUnitLoop draws n i st ≠ .ret run (some e) := by
  intro n
  induction n with
  | zero => intro i st run e _ h; simp [generateUnitLoop] at h
  | succ n ih =>
    intro i st run e htime h
    have t0 := htime 0 (Nat.succ_pos n)
    simp only [Nat.cast_zero, add_zero] at t0
    rw [generateUnitLoop_succ] at h
    split at h
    · rw [if_neg t0] at h
      refine ih _ _ _ _ ?_ h
      intro k hk
      have := htime (k + 1) (Nat.succ_lt_succ hk)
      simp only [Nat.cast_succ] at this
      simpa only [add_assoc, add_comm (1 : Int) (k : Int)] using this
    · simp at h

/-- For a positive interval and an `int64` duration, the timestamps of all steps
stay at or above `Start` when the window end `Start + Duration` is below `2^63`. -/
theorem step_times_pass (r : Request) (u : Unit) (hdur : isInt64 r.Duration)
    (hu : 0 < u.Interval) (hend : r.Start + r.Duration < 2 ^ 63) :
    ∀ k : Nat, k < steps r u →
      ¬ add64 r.Start (mul64 (k : Int) u.Interval) < r.Start := by
  intro k hk
  by_cases hd0 : 0 ≤ r.Duration
  · rw [steps_of_pos hd0 hdur.2 hu] at hk
    rcases step_offset_bounds hu hk with ⟨h0, h1, h2⟩ | h
    · unfold add64 mul64 wrap64
      generalize (k : Int) * u.Interval = x at h0 h1 h2
      omega
    · have := hdur.2
      omega
  · exfalso
    have hneg : Int.tdiv r.Duration u.Interval ≤ 0 := by
      have h1 : Int.tdiv (-r.Duration) u.Interval = -(Int.tdiv r.Duration u.Interval) :=
        Int.neg_tdiv _ _
      have h2 : 0 ≤ Int.tdiv (-r.Duration) u.Interval :=
        Int.tdiv_nonneg (by omega) (le_of_lt hu)
      omega
    have hlow : r.Duration ≤ Int.tdiv r.Duration u.Interval := by
      have h1 : Int.tdiv (-r.Duration) u.Interval = -(Int.tdiv r.Duration u.Interval) :=
        Int.neg_tdiv _ _
      have h2 : Int.tdiv (-r.Duration) u.Interval = -r.Duration / u.Interval :=
        Int.tdiv_eq_ediv (by omega) (le_of_lt hu)
      have h3 : -r.Duration / u.Interval ≤ -r.Duration := Int.ediv_le_self _ (by omega)
      omega
    have hsteps : steps r u = 0 := by
      unfold steps div64
      rw [wrap64_of_isInt64]
      · omega
      · have := hdur.1
        unfold isInt64
        omega
    omega

/-- C17 (counterexample): on a window that wraps past `MaxInt64` (as `New` returns
it) the third step's timestamp is `MinInt64`, below `Start`, and `generateUnit`
returns the "failed to create record" error; on a hand-built request with
`Duration = -2` and a unit with `Interval = -1` the second step's timestamp is
`Start - 1` and the call fails in the same way. -/
theorem generateUnit_record_error :
    (New wrappedInput = .ret { wrappedInput with Duration := 3, RecordCount := 3 } none ∧
      add64 wrappedInput.Start (mul64 2 1) < wrappedInput.Start ∧
      generateUnit exampleCap midDraws { wrappedInput with Duration := 3, RecordCount := 3 }
          { meterUnit with Interval := 1 } 0 =
        .ret { request := { wrappedInput with Duration := 3, RecordCount := 3 },
               unit := { meterUnit with Interval := 1, Reading := 189 / 10 }, pos := 3,
               records := [] } (some "failed to create record")) ∧
    (add64 reversedRequest.Start (mul64 1 (-1)) < reversedRequest.Start ∧
      generateUnit exampleCap halfDraws reversedRequest { cappedUnit with Interval := -1 } 0 =
        .ret { request := reversedRequest,
               unit := { cappedUnit with Interval := -1, Reading := 1 / 2 }, pos := 2,
               records := [] } (some "failed to create record")) := by
  decide!

/-- C17 (amended): for a request with an `int64` `Duration` whose window end
`Start + Duration` is below `2^63` and a unit with a positive `Interval`, every
timestamp the step loop passes to `createRecord` is at or above `Start`, and
`generateUnit` never returns an error. -/
theorem generateUnit_no_record_error (maxCap : Int) (draws : Nat → Draw)
    (r : Request) (u : Unit) (pos : Nat)
    (hdur : isInt64 r.Duration) (hu : 0 < u.Interval) (hend : r.Start + r.Duration < 2 ^ 63) :
    (∀ k : Nat, k < steps r u → r.Start ≤ add64 r.Start (mul64 (k : Int) u.Interval)) ∧
      ∀ run e, generateUnit maxCap draws r u pos ≠ .ret run (some e) := by
  have htimes := step_times_pass r u hdur hu hend
  constructor
  · intro k hk
    exact not_lt.1 (htimes k hk)
  · intro run e h
    unfold generateUnit at h
    split at h
    · simp at h
    · simp only at h
      split at h
      · simp at h
      · refine generateUnitLoop_no_error draws _ _ _ _ _ ?_ h
        intro k hk
        simp only [zero_add]
        exact htimes k hk

/-- C17 (witness): the second unit of `walkRequest` (window `10 .. 14`, interval 1)
runs its four steps without an error. -/
theorem generateUnit_no_record_error_example :
    isInt64 walkRequest.Duration ∧ 0 < thermoUnit.Interval ∧
      walkRequest.Start + walkRequest.Duration < 2 ^ 63 ∧ steps walkRequest thermoUnit = 4 ∧
      (∀ k : Nat, k < steps walkRequest thermoUnit →
        walkRequest.Start ≤ add64 walkRequest.Start (mul64 (k : Int) thermoUnit.Interval)) ∧
      ∀ run e, generateUnit exampleCap midDraws walkRequest thermoUnit 2 ≠ .ret run (some e) := by
  have h := generateUnit_no_record_error exampleCap midDraws walkRequest thermoUnit 2 (by decide)
    (by decide) (by decide)
  exact ⟨by decide, by decide, by decide, by decide, h.1, h.2⟩

/-! ## A drawn category without its two bounds -/

/-- A step whose drawn category lacks its two bounds panics. -/
theorem generateUnitLoop_missing (draws : Nat → Draw) (m : Nat) (i : Int) (st : UnitRun)
    (hbad : (categoryLookup st.unit (draws st.pos).category).length < 2) :
    generateUnitLoop draws (m + 1) i st = .panic "runtime error: index out of range" := by
  rw [generateUnitLoop_succ]
  split
  · next lower upper rest hlook =>
    rw [hlook] at hbad
    simp only [List.length_cons] at hbad
    omega
  · rfl

/-- The call `generateUnit` panics when, after `k` successful steps and with steps
still to run, the drawn category lacks its two bounds (in `make` already when the
step count is more than it can allocate). -/
theorem generateUnit_missing_category (maxCap : Int) (draws : Nat → Draw) (r : Request) (u : Unit)
    (pos k : Nat) (st : UnitRun) (hk : k < steps r u)
    (hsteps : generateUnitLoop draws k 0 { request := r, unit := u, pos := pos, records := [] } =
      .ret st none)
    (hbad : (categoryLookup u (draws st.pos).category).length < 2) :
    ∃ msg, generateUnit maxCap draws r u pos = .panic msg := by
  have hunit := (generateUnitLoop_ok draws _ _ _ _ hsteps).2.2.1
  have hbad2 : (categoryLookup st.unit (draws st.pos).category).length < 2 := by
    rw [hunit]; exact hbad
  have hne : u.Interval ≠ 0 := by
    intro h0
    unfold steps div64 at hk
    rw [h0, Int.tdiv_zero] at hk
    simp [wrap64] at hk
  have hn : (div64 r.Duration u.Interval).toNat =
      k + ((div64 r.Duration u.Interval).toNat - k - 1 + 1) := by
    unfold steps at hk
    omega
  unfold generateUnit
  rw [if_neg hne]
  simp only
  by_cases hmake : makeFails maxCap (div64 r.Duration u.Interval)
  · rw [if_pos hmake]
    exact ⟨_, rfl⟩
  · rw [if_neg hmake, hn, generateUnitLoop_add draws _ _ _ _ _ hsteps]
    exact ⟨_, generateUnitLoop_missing draws _ _ st hbad2⟩

/-- A panic of `generateUnit` passes through the unit loop of `Generate`. -/
theorem generateLoop_panic (maxCap : Int) (draws : Nat → Draw) (r : Request) (pos : Nat) (u : Unit)
    (rest : List Unit) (msg : String) (h : generateUnit maxCap draws r u pos = .panic msg) :
    generateLoop maxCap draws r pos (u :: rest) = .panic msg := by
  rw [generateLoop, h]

/-- C18 (counterexample): with a sampler of two categories and a table that has
only the first (or that has a single bound for the second), drawing category 1
makes `generateUnit` panic with an index out of range; it returns no error, and
`Generate` panics as well. -/
theorem generateUnit_missing_category_example :
    categoryLookup gappedUnit (midDraws 0).category = [] ∧
      generateUnit exampleCap midDraws cappedRequest gappedUnit 0 =
        .panic "runtime error: index out of range" ∧
      Generate exampleCap midDraws { cappedRequest with Units := [gappedUnit] } =
        .panic "runtime error: index out of range" ∧
      categoryLookup shortUnit (midDraws 0).category = [5] ∧
      generateUnit exampleCap midDraws cappedRequest shortUnit 0 =
        .panic "runtime error: index out of range" := by
  decide!

/-- C18 (amended): if, in a run of `Generate` in which the units before `u` are
generated successfully, the loop of `generateUnit` for `u` reaches after `k`
successful steps, with steps still to run, a draw whose category has no entry with
two bounds in the unit's table, then `generateUnit` returns nothing for `u`,
neither records nor an error, and `Generate` returns nothing either. -/
theorem missing_category_no_return (maxCap : Int) (draws : Nat → Draw)
    (r : Request) (pre : List Unit)
    (u : Unit) (post : List Unit) (mid : Request) (recs : List SenMLRecord) (k : Nat)
    (st : UnitRun) (hunits : r.Units = pre ++ u :: post)
    (hpre : generateLoop maxCap draws { r with Records := [] } 0 pre = .ret (mid, recs) none)
    (hk : k < steps mid u)
    (hsteps : generateUnitLoop draws k 0
      { request := mid, unit := u, pos := drawsConsumed r pre, records := [] } = .ret st none)
    (hbad : (categoryLookup u (draws st.pos).category).length < 2) :
    (∀ run e, generateUnit maxCap draws mid u (drawsConsumed r pre) ≠ .ret run e) ∧
      ∀ out e, Generate maxCap draws r ≠ .ret out e := by
  obtain ⟨msg, hpanic⟩ := generateUnit_missing_category maxCap draws mid u _ k st hk hsteps hbad
  constructor
  · intro run e h
    rw [hpanic] at h
    simp at h
  · intro out e h
    have hlist : generateLoop maxCap draws { r with Records := [] } 0 r.Units =
        generateLoop maxCap draws { r with Records := [] } 0 (pre ++ u :: post) :=
      congrArg _ hunits
    unfold Generate at h
    split at h
    · simp at h
    · rw [hlist, generateLoop_append maxCap draws r _ pre [] 0 mid recs hpre, Nat.zero_add,
        generateLoop_panic maxCap draws _ _ _ _ _ hpanic] at h
      simp at h

/-- C18 (witness): `gappedUnit` as the only unit: the first draw has no entry, and
neither `generateUnit` nor `Generate` returns. -/
theorem missing_category_no_return_example :
    (categoryLookup gappedUnit (midDraws gappedStart.pos).category).length < 2 ∧
      (∀ run e, generateUnit exampleCap midDraws gappedStart.request gappedUnit 0 ≠ .ret run e) ∧
      ∀ out e, Generate exampleCap midDraws { cappedRequest with Units := [gappedUnit] } ≠ .ret out e := by
  have h := missing_category_no_return exampleCap midDraws { cappedRequest with Units := [gappedUnit] }
    [] gappedUnit [] gappedStart.request [] 0 gappedStart (by decide!) (by decide!) (by decide!)
    (by decide!) (by decide!)
  exact ⟨by decide!, h.1, h.2⟩

end Senulator
